import Mathlib

/-!
Verification development for the stocks-picking-competition pipeline
(src/data_processing.py together with the table layer in src/db/).

Shallow embedding conventions:
  * dates are epoch-day naturals (ISO date strings compare lexicographically,
    which coincides with the numeric order of epoch days);
  * money and prices are rationals (Python floats idealised); the float
    exponent in the performance summarizer is Real.rpow;
  * a sparse pandas series (only non-NaN entries) is an association list
    from date to value;
  * SQL tables are Lean lists of row structures; SELECT/UPDATE statements
    are translated to the corresponding list operations;
  * a raised Python exception is an Except error value.
-/

namespace StocksPicking

/-- A sparse time series: (date, value) pairs, one per non-NaN entry. -/
abbrev Series := List (ℕ × ℚ)

/-- SQL MAX over a list of dates (NULL for the empty table). -/
def listMax : List ℕ → Option ℕ
  | [] => none
  | d :: ds =>
    match listMax ds with
    | none => some d
    | some m => some (max d m)

/-- Python str.endswith, via suffix test on the character lists. -/
def strEndsWith (t suf : String) : Bool := suf.data.isSuffixOf t.data

/-- Constant INITIAL_VALUE_USD = 1e5 (data_processing.py line 15). -/
def INITIAL_VALUE_USD : ℚ := 100000

/-- get_formatted_ticker (data_processing.py lines 19-45). -/
def get_formatted_ticker (ticker exchange : String) : String :=
  if exchange = "NYSE" ∨ exchange = "NASDAQ" then ticker
  else if exchange = "HKG" then ticker ++ ".HK"
  else if exchange = "EPA" then ticker ++ ".PA"
  else if exchange = "LON" then ticker ++ ".L"
  else if exchange = "TSE" then ticker ++ "-A.TO"
  else if exchange = "CVE" then ticker ++ ".V"
  else if exchange = "XETRA" then ticker ++ ".DE"
  else ticker

/-- An entry of the static configuration list in load_positions. -/
structure RawPosition where
  name : String
  ticker : String
  exchange : String
  weight : ℚ
deriving DecidableEq

/-- load_positions (data_processing.py lines 47-91): the fixed competition entries. -/
def load_positions : List RawPosition :=
  [⟨"Apoorva", "TSM", "NYSE", 0.4⟩,
   ⟨"Apoorva", "GOOGL", "NASDAQ", 0.1⟩,
   ⟨"Apoorva", "TAK", "NYSE", 0.25⟩,
   ⟨"Apoorva", "0700", "HKG", 0.25⟩,
   ⟨"Alessandro", "DUOL", "NASDAQ", 0.4⟩,
   ⟨"Alessandro", "GOOG", "NASDAQ", 0.25⟩,
   ⟨"Alessandro", "ZG", "NASDAQ", 0.35⟩,
   ⟨"Ivan", "VST", "NYSE", 0.4⟩,
   ⟨"Ivan", "EXPE", "NASDAQ", 0.3⟩,
   ⟨"Ivan", "DGX", "NYSE", 0.3⟩,
   ⟨"Abhi", "ASR", "NYSE", 0.25⟩,
   ⟨"Abhi", "0700", "HKG", 0.25⟩,
   ⟨"Abhi", "SMCI", "NASDAQ", 0.25⟩,
   ⟨"Abhi", "BRO", "NASDAQ", 0.25⟩,
   ⟨"Conor", "PFE", "NYSE", 0.2⟩,
   ⟨"Conor", "RR", "LON", 0.2⟩,
   ⟨"Conor", "MCD", "NYSE", 0.2⟩,
   ⟨"Conor", "SHEL", "LON", 0.2⟩,
   ⟨"Conor", "ALV", "XETRA", 0.2⟩,
   ⟨"Diarbhail", "FLUT", "NYSE", 0.34⟩,
   ⟨"Diarbhail", "NVDA", "NASDAQ", 0.33⟩,
   ⟨"Diarbhail", "SCAN", "CVE", 0.33⟩,
   ⟨"Radu", "MP", "NYSE", 0.1⟩,
   ⟨"Radu", "DBK", "XETRA", 0.5⟩,
   ⟨"Radu", "RTX", "NYSE", 0.2⟩,
   ⟨"Radu", "RHM", "XETRA", 0.2⟩,
   ⟨"Silvia", "NVO", "NYSE", 0.33⟩,
   ⟨"Silvia", "NVDA", "NASDAQ", 0.33⟩,
   ⟨"Silvia", "OPRA", "NASDAQ", 0.34⟩]

/-- A row of the positions table (db/database_remote.py create_tables; the
three trailing columns are added by the allocation stage and start NULL). -/
structure PositionRow where
  name : String
  ticker : String
  exchange : String
  weight : ℚ
  formatted_ticker : String
  shares : Option ℚ
  price_at_start : Option ℚ
  allocation_usd : Option ℚ
deriving DecidableEq

/-- A row of the daily_prices table. -/
structure PriceRow where
  date : ℕ
  ticker : String
  price : ℚ
deriving DecidableEq

/-- A row of the exchange_rates table. -/
structure RateRow where
  date : ℕ
  from_c : String
  to_c : String
  rate : ℚ
deriving DecidableEq

/-- A row of the portfolio_values table. -/
structure ValueRow where
  date : ℕ
  name : String
  value : ℚ
  pct_change : ℚ
deriving DecidableEq

/-- A row of the performance_metrics table.  The annualized return is a real
number because the source computes it with a float power. -/
structure MetricRow where
  name : String
  initial_value : ℚ
  final_value : ℚ
  total_return_pct : ℚ
  annualized_return_pct : ℝ
  last_updated : ℕ

/-- The persistent store: the five tables of create_tables. -/
structure DB where
  positions : List PositionRow
  daily_prices : List PriceRow
  exchange_rates : List RateRow
  portfolio_values : List ValueRow
  performance_metrics : List MetricRow

/-- The external world: per-ticker close series and per-FX-pair rate series as
returned by the data vendor (only non-NaN entries), and the wall-clock date. -/
structure Env where
  close : String → Series
  fx : String → Series
  currentDate : ℕ

/-- The rows written by save_positions_to_db (lines 93-139): the static list,
with the formatted ticker, replacing the whole table (allocation columns are
absent, i.e. NULL). -/
def fixedRows : List PositionRow :=
  load_positions.map (fun p =>
    ⟨p.name, p.ticker, p.exchange, p.weight,
     get_formatted_ticker p.ticker p.exchange, none, none, none⟩)

/-- save_positions_to_db: write_data(..., if_exists='replace'). -/
def save_positions_to_db (db : DB) : DB := { db with positions := fixedRows }

/-! ### Price and FX ingestion (download_and_save_stock_data, lines 141-486) -/

/-- Currency classification by formatted-ticker suffix (lines 170-183,
one elif chain per position row). -/
def classifyCur (t : String) : Option String :=
  if strEndsWith t ".HK" then some "HKD"
  else if strEndsWith t ".PA" then some "EUR"
  else if strEndsWith t ".L" then some "GBP"
  else if strEndsWith t ".TO" || strEndsWith t ".V" then some "CAD"
  else if strEndsWith t ".DE" then some "EUR"
  else none

/-- The per-currency ticker lists built in lines 164-184.  NOTE: the source
appends one entry per position row, so a ticker held by several participants
occurs several times (the list named unique_tickers is not deduplicated). -/
def tickersOfCur (ps : List PositionRow) (cur : String) : List String :=
  (ps.map (fun p => p.formatted_ticker)).filter
    (fun t => decide (classifyCur t = some cur))

/-- Index alignment of a rate series against a price date (pandas aligns the
USD_Rate column on the price index; a date absent from the rate series is NaN). -/
def seriesLookup (s : Series) (d : ℕ) : Option ℚ :=
  (s.find? (fun p => decide (p.1 = d))).map (fun p => p.2)

/-- One currency conversion of one column (lines 246-254): USD_Price =
price * rate where both exist, NaN (dropped) otherwise — an inner join on date. -/
def convertSeries (price rate : Series) : Series :=
  price.filterMap (fun pr => (seriesLookup rate pr.1).map (fun r => (pr.1, pr.2 * r)))

/-- Replacement of one column of prices_df. -/
def updateCol (pf : String → Series) (t : String) (s : Series) : String → Series :=
  fun u => if u = t then s else pf u

/-- The conversion loop of one currency block (for ticker in hk_tickers: ...,
lines 242-254): each occurrence of a ticker in the list multiplies that
ticker's column by the rate series once more. -/
def convertPass (rate : Series) (tickers : List String) (pf : String → Series) :
    String → Series :=
  tickers.foldl (fun f t => updateCol f t (convertSeries (f t) rate)) pf

/-- prices_df after the four conversion blocks, in source order
HKD, EUR, GBP, CAD (lines 195-441). -/
def finalSeriesMap (env : Env) (ps : List PositionRow) : String → Series :=
  convertPass (env.fx "CADUSD=X") (tickersOfCur ps "CAD")
    (convertPass (env.fx "GBPUSD=X") (tickersOfCur ps "GBP")
      (convertPass (env.fx "EURUSD=X") (tickersOfCur ps "EUR")
        (convertPass (env.fx "HKDUSD=X") (tickersOfCur ps "HKD") env.close)))

/-- all_prices_data (lines 443-457): one row per non-NaN entry, iterating the
(non-deduplicated) ticker list. -/
def newPriceRows (env : Env) (ps : List PositionRow) : List PriceRow :=
  let pf := finalSeriesMap env ps
  (ps.map (fun p => p.formatted_ticker)).foldl
    (fun acc t => acc ++ (pf t).map (fun dv => ⟨dv.1, t, dv.2⟩)) []

/-- Incremental write of daily_prices (lines 460-485): with a stored MAX(date),
append only rows strictly after it; with an empty table, write everything. -/
def writeDailyPrices (stored new : List PriceRow) : List PriceRow :=
  match listMax (stored.map (fun r => r.date)) with
  | some m => stored ++ new.filter (fun r => decide (m < r.date))
  | none => new

/-- Dates of the rows of one currency pair (MAX(date) WHERE from_currency = cur
AND to_currency = 'USD'). -/
def curDates (cur : String) (s : List RateRow) : List ℕ :=
  (s.filter (fun r => decide (r.from_c = cur) && decide (r.to_c = "USD"))).map
    (fun r => r.date)

/-- Incremental write of exchange_rates for one currency (e.g. lines 216-239
for HKD).  The HKD block uses if_exists='replace' when the pair has no stored
rows yet (replaceIfNone = true); the EUR/GBP/CAD blocks use 'append' there. -/
def writeRates (cur : String) (replaceIfNone : Bool) (s nr : List RateRow) :
    List RateRow :=
  if nr = [] then s
  else
    match listMax (curDates cur s) with
    | some m => s ++ nr.filter (fun r => decide (m < r.date))
    | none => if replaceIfNone then nr else s ++ nr

/-- Rate rows prepared from a downloaded FX series (e.g. lines 204-213). -/
def ratesOfSeries (cur : String) (s : Series) : List RateRow :=
  s.map (fun dv => ⟨dv.1, cur, "USD", dv.2⟩)

/-- One currency block of download_and_save_stock_data: skipped entirely when
no position ticker belongs to the currency. -/
def ratesStep (env : Env) (ps : List PositionRow) (cur sym : String)
    (replaceIfNone : Bool) (s : List RateRow) : List RateRow :=
  if tickersOfCur ps cur = [] then s
  else writeRates cur replaceIfNone s (ratesOfSeries cur (env.fx sym))

/-- The four currency blocks in source order. -/
def ratesChain (env : Env) (ps : List PositionRow) (s : List RateRow) :
    List RateRow :=
  ratesStep env ps "CAD" "CADUSD=X" false
    (ratesStep env ps "GBP" "GBPUSD=X" false
      (ratesStep env ps "EUR" "EURUSD=X" false
        (ratesStep env ps "HKD" "HKDUSD=X" true s)))

/-- download_and_save_stock_data (lines 141-486) as a table transformer. -/
def download_and_save_stock_data (env : Env) (db : DB) : DB :=
  { db with
    daily_prices := writeDailyPrices db.daily_prices (newPriceRows env db.positions),
    exchange_rates := ratesChain env db.positions db.exchange_rates }

/-! ### Allocation (calculate_and_save_portfolio_allocations, lines 488-615) -/

/-- The ValueError raised at line 549 when no price row exists at or before
the fixed valuation date (the error the spec names NoAnchorDateError). -/
inductive AllocError where
  | noAnchorDate
deriving DecidableEq

/-- person_weights (lines 529-537): dictionary accumulation of each
participant's weight total. -/
def person_weights (ps : List PositionRow) (name : String) : ℚ :=
  ps.foldl (fun acc p => if p.name = name then acc + p.weight else acc) 0

/-- The anchor ("closest") date: MAX(date) among price rows at or before the
fixed valuation date (lines 541-551). -/
def resolve_anchor (rows : List PriceRow) (fixedDate : ℕ) : Option ℕ :=
  listMax ((rows.map (fun r => r.date)).filter (fun d => decide (d ≤ fixedDate)))

/-- SELECT price ... WHERE date = d AND ticker = t, first row (iloc[0]). -/
def priceAt (rows : List PriceRow) (d : ℕ) (t : String) : Option ℚ :=
  ((rows.filter (fun r => decide (r.date = d) && decide (r.ticker = t))).head?).map
    (fun r => r.price)

/-- allocation_usd before rounding to shares (line 565). -/
def alloc_amount (ps : List PositionRow) (p : PositionRow) : ℚ :=
  INITIAL_VALUE_USD * (p.weight / person_weights ps p.name)

/-- One entry of position_updates (lines 580-586). -/
structure AllocUpdate where
  name : String
  ticker : String
  shares : ℚ
  price_at_start : ℚ
  allocation_usd : ℚ
deriving DecidableEq

/-- The update record produced for one position whose anchor price is pr
(lines 574-586): shares = allocation/price, actual allocation = shares*price. -/
def mkUpdate (ps : List PositionRow) (p : PositionRow) (pr : ℚ) : AllocUpdate :=
  ⟨p.name, p.ticker, alloc_amount ps p / pr, pr, alloc_amount ps p / pr * pr⟩

/-- position_updates (lines 558-597): a position with no price row at the
anchor date is skipped (else branch, line 597). -/
def position_updates (prices : List PriceRow) (anchor : ℕ)
    (ps : List PositionRow) : List AllocUpdate :=
  ps.filterMap (fun p => (priceAt prices anchor p.formatted_ticker).map (mkUpdate ps p))

/-- Effect of one UPDATE statement on one row: set the three allocation
columns when the WHERE clause name = ... AND ticker = ... matches. -/
def applyOne (u : AllocUpdate) (p : PositionRow) : PositionRow :=
  if p.name = u.name ∧ p.ticker = u.ticker then
    { p with shares := some u.shares, price_at_start := some u.price_at_start,
             allocation_usd := some u.allocation_usd }
  else p

/-- UPDATE positions SET shares, price_at_start, allocation_usd
WHERE name = ... AND ticker = ... (lines 604-611). -/
def applyUpdate (ps : List PositionRow) (u : AllocUpdate) : List PositionRow :=
  ps.map (applyOne u)

/-- The positions table after the update loop (lines 600-611). -/
def alloc_apply (prices : List PriceRow) (anchor : ℕ) (ps : List PositionRow) :
    List PositionRow :=
  (position_updates prices anchor ps).foldl applyUpdate ps

/-- calculate_and_save_portfolio_allocations on its inputs; raises when no
anchor date resolves (line 549), before any UPDATE is issued. -/
def alloc_result (fixedDate : ℕ) (prices : List PriceRow)
    (ps : List PositionRow) : Except AllocError (List PositionRow) :=
  match resolve_anchor prices fixedDate with
  | none => .error .noAnchorDate
  | some anchor => .ok (alloc_apply prices anchor ps)

/-- calculate_and_save_portfolio_allocations as a table transformer. -/
def calculate_and_save_portfolio_allocations (fixedDate : ℕ) (db : DB) :
    Except AllocError DB :=
  (alloc_result fixedDate db.daily_prices db.positions).map
    (fun ps2 => { db with positions := ps2 })

/-! ### Valuation (calculate_and_save_portfolio_values, lines 617-719) -/

/-- SELECT * FROM positions WHERE shares IS NOT NULL (line 628). -/
def share_positions (ps : List PositionRow) : List PositionRow :=
  ps.filter (fun p => p.shares.isSome)

/-- The participant set of the valuation stage: distinct names among the
share-bearing positions (line 667). -/
def valuation_names (ps : List PositionRow) : List String :=
  ((share_positions ps).map (fun p => p.name)).dedup

/-- Ascending insertion. -/
def insertNat (d : ℕ) : List ℕ → List ℕ
  | [] => [d]
  | x :: xs => if d ≤ x then d :: x :: xs else x :: insertNat d xs

/-- ORDER BY date ascending. -/
def sortAsc (l : List ℕ) : List ℕ := l.foldr insertNat []

/-- SELECT DISTINCT date FROM daily_prices WHERE date >= anchor ORDER BY date
(lines 650-661). -/
def valuation_dates (rows : List PriceRow) (anchor : ℕ) : List ℕ :=
  sortAsc (((rows.map (fun r => r.date)).filter (fun d => decide (anchor ≤ d))).dedup)

/-- Price lookup of the valuation loop (lines 679-693): the rows for a ticker
are zipped into a dict, so the last row for a (date, ticker) pair wins. -/
def priceDictAt (rows : List PriceRow) (d : ℕ) (t : String) : Option ℚ :=
  ((rows.filter (fun r => decide (r.date = d) && decide (r.ticker = t))).getLast?).map
    (fun r => r.price)

/-- Contribution of one position on one date (lines 691-693): a position with
no price row on that date contributes 0. -/
def position_value (prices : List PriceRow) (d : ℕ) (p : PositionRow) : ℚ :=
  match priceDictAt prices d p.formatted_ticker with
  | some pr => pr * p.shares.getD 0
  | none => 0

/-- daily_values for one participant on one date (lines 670-693): the sum of
the contributions of that participant's share-bearing positions. -/
def daily_value (prices : List PriceRow) (ps : List PositionRow) (name : String)
    (d : ℕ) : ℚ :=
  ((share_positions ps).filter (fun p => decide (p.name = name))).foldl
    (fun acc p => acc + position_value prices d p) 0

/-- pct_change (lines 698-699): change relative to the first value of the
series.  Rational division is total, so the zero-divisor case that pandas
turns into inf/NaN is visible here as a zero denominator. -/
def pct_change (dv : ℕ → ℚ) (d0 d : ℕ) : ℚ := (dv d / dv d0 - 1) * 100

/-- The portfolio_values rows written for one participant (lines 697-717). -/
def rows_for_name (prices : List PriceRow) (ps : List PositionRow)
    (dates : List ℕ) (name : String) : List ValueRow :=
  let dv := fun d => daily_value prices ps name d
  let d0 := dates.head?.getD 0
  dates.map (fun d => ⟨d, name, dv d, pct_change dv d0 d⟩)

/-- All portfolio_values rows: replace on the first participant and append on
the rest, i.e. the concatenation over the participant set (line 717). -/
def all_value_rows (prices : List PriceRow) (ps : List PositionRow)
    (dates : List ℕ) : List ValueRow :=
  (valuation_names ps).foldl (fun acc n => acc ++ rows_for_name prices ps dates n) []

/-- calculate_and_save_portfolio_values on its inputs.  none = the early
returns that leave the table untouched (lines 631-633, 657-659); the anchor
re-resolution can raise as in the allocation stage (line 645). -/
def values_result (fixedDate : ℕ) (prices : List PriceRow)
    (ps : List PositionRow) : Except AllocError (Option (List ValueRow)) :=
  if share_positions ps = [] then .ok none
  else
    match resolve_anchor prices fixedDate with
    | none => .error .noAnchorDate
    | some anchor =>
      let dates := valuation_dates prices anchor
      if dates = [] then .ok none
      else .ok (some (all_value_rows prices ps dates))

/-- calculate_and_save_portfolio_values as a table transformer. -/
def calculate_and_save_portfolio_values (fixedDate : ℕ) (db : DB) :
    Except AllocError DB :=
  (values_result fixedDate db.daily_prices db.positions).map
    (fun res =>
      match res with
      | some rows => { db with portfolio_values := rows }
      | none => db)

/-! ### Performance summary (calculate_and_save_performance_metrics, 721-801) -/

/-- Python arithmetic exceptions reachable in the summarizer, plus the error
kind the spec postulates.  zeroDivisionError is the built-in error raised by a
float division with zero denominator (lines 763 and 770).
degenerateSeriesError is Modelled from the spec: the spec's section 7 names a
dedicated DegenerateSeriesError for degenerate series; no such error exists
anywhere in the source, and the constructor is present only so that the claim
about it can be stated. -/
inductive PyError where
  | zeroDivisionError
  | degenerateSeriesError
deriving DecidableEq

/-- Ascending insertion of value rows by date (ORDER BY date, line 751). -/
def insertValueRow (r : ValueRow) : List ValueRow → List ValueRow
  | [] => [r]
  | x :: xs => if r.date ≤ x.date then r :: x :: xs else x :: insertValueRow r xs

/-- ORDER BY date over portfolio_values rows. -/
def sortValueRows (l : List ValueRow) : List ValueRow := l.foldr insertValueRow []

/-- The annualized-return expression of line 770,
((final/initial) ** (1/years) - 1) * 100, as a function of the growth factor
final/initial and of years. -/
noncomputable def annualized_formula (b yrs : ℝ) : ℝ :=
  (b ^ ((1 : ℝ) / yrs) - 1) * 100

/-- The body of the per-participant loop of
calculate_and_save_performance_metrics (lines 746-789).  none = no
portfolio_values rows for this name (warning + continue, lines 755-757).
Divisions are checked as in Python: final/initial at line 763 raises
ZeroDivisionError when the initial value is 0, and 1/years at line 770 raises
it when the series spans zero days. -/
noncomputable def calc_metric (cd : ℕ) (name : String) (pvals : List ValueRow) :
    Except PyError (Option MetricRow) :=
  let series := sortValueRows (pvals.filter (fun r => decide (r.name = name)))
  match series.head?, series.getLast? with
  | some fr, some lr =>
    if fr.value = 0 then .error .zeroDivisionError
    else
      let days : ℕ := lr.date - fr.date
      let years : ℚ := (days : ℚ) / 365.25
      if years = 0 then .error .zeroDivisionError
      else
        .ok (some
          { name := name
            initial_value := fr.value
            final_value := lr.value
            total_return_pct := (lr.value / fr.value - 1) * 100
            annualized_return_pct :=
              annualized_formula ((lr.value / fr.value : ℚ) : ℝ) ((years : ℚ) : ℝ)
            last_updated := cd })
  | _, _ => .ok none

/-- SELECT DISTINCT name FROM positions (lines 732-739). -/
def metric_names (ps : List PositionRow) : List String :=
  (ps.map (fun p => p.name)).dedup

/-- The metrics loop over all names; an exception aborts the whole stage
before anything is written. -/
noncomputable def metrics_loop (cd : ℕ) (pvals : List ValueRow) :
    List String → Except PyError (List MetricRow)
  | [] => .ok []
  | n :: rest =>
    match calc_metric cd n pvals with
    | .error e => .error e
    | .ok none => metrics_loop cd pvals rest
    | .ok (some row) =>
      match metrics_loop cd pvals rest with
      | .error e => .error e
      | .ok ms => .ok (row :: ms)

/-- calculate_and_save_performance_metrics on its inputs: none = nothing
written (no names, an exception, or no metrics rows). -/
noncomputable def metrics_result (cd : ℕ) (ps : List PositionRow)
    (pvals : List ValueRow) : Option (List MetricRow) :=
  if metric_names ps = [] then none
  else
    match metrics_loop cd pvals (metric_names ps) with
    | .error _ => none
    | .ok [] => none
    | .ok (row :: ms) => some (row :: ms)

/-- calculate_and_save_performance_metrics as a table transformer (replace
semantics, line 797). -/
noncomputable def calculate_and_save_performance_metrics (cd : ℕ) (db : DB) : DB :=
  match metrics_result cd db.positions db.portfolio_values with
  | some ms => { db with performance_metrics := ms }
  | none => db

/-- process_all_data (lines 803-830): the five stages in order.  An uncaught
exception in a stage leaves the store in its state at the raise; the value of
this function is the state of the store when the run ends, normally or not. -/
noncomputable def process_all (fixedDate : ℕ) (env : Env) (db : DB) : DB :=
  let db2 := download_and_save_stock_data env (save_positions_to_db db)
  match calculate_and_save_portfolio_allocations fixedDate db2 with
  | .error _ => db2
  | .ok db3 =>
    match calculate_and_save_portfolio_values fixedDate db3 with
    | .error _ => db3
    | .ok db4 => calculate_and_save_performance_metrics env.currentDate db4

end StocksPicking

namespace StocksPicking

/-! ### Helper lemmas -/

theorem str_append_assoc (a b c : String) : a ++ b ++ c = a ++ (b ++ c) :=
  String.append_assoc a b c

theorem listMax_eq_none_iff {l : List ℕ} : listMax l = none ↔ l = [] := by
  cases l with
  | nil => simp [listMax]
  | cons d ds =>
    simp only [listMax]
    cases listMax ds <;> simp

theorem listMax_mem : ∀ {l : List ℕ} {m : ℕ}, listMax l = some m → m ∈ l := by
  intro l
  induction l with
  | nil => intro m h; simp [listMax] at h
  | cons d ds ih =>
    intro m h
    simp only [listMax] at h
    cases hds : listMax ds with
    | none => rw [hds] at h; simp at h; simp [h]
    | some m2 =>
      rw [hds] at h
      simp at h
      rcases max_choice d m2 with hc | hc <;> rw [← h, hc]
      · simp
      · simpa using Or.inr (ih hds)

theorem le_listMax : ∀ {l : List ℕ} {m d : ℕ}, listMax l = some m → d ∈ l → d ≤ m := by
  intro l
  induction l with
  | nil => intro m d h hd; simp at hd
  | cons x xs ih =>
    intro m d h hd
    simp only [listMax] at h
    cases hxs : listMax xs with
    | none =>
      rw [hxs] at h
      simp only [Option.some.injEq] at h
      rcases List.mem_cons.mp hd with hc | hc
      · omega
      · exact absurd (listMax_eq_none_iff.mp hxs ▸ hc) (List.not_mem_nil d)
    | some m2 =>
      rw [hxs] at h
      simp only [Option.some.injEq] at h
      rcases List.mem_cons.mp hd with hc | hc
      · subst hc
        have := le_max_left d m2
        omega
      · have h1 := ih hxs hc
        have := le_max_right x m2
        omega

theorem listMax_isSome {l : List ℕ} (h : l ≠ []) : ∃ m, listMax l = some m := by
  cases hl : listMax l with
  | none => exact absurd (listMax_eq_none_iff.mp hl) h
  | some m => exact ⟨m, rfl⟩

theorem foldl_add_eq_sum {α : Type} (f : α → ℚ) :
    ∀ (l : List α) (a : ℚ), l.foldl (fun acc x => acc + f x) a = a + (l.map f).sum := by
  intro l
  induction l with
  | nil => intro a; simp
  | cons x xs ih => intro a; simp [ih, add_assoc]

theorem sum_nonneg_pos {l : List ℚ} (h0 : ∀ x ∈ l, 0 ≤ x) {x : ℚ} (hx : x ∈ l)
    (hpos : 0 < x) : 0 < l.sum := by
  induction l with
  | nil => simp at hx
  | cons y ys ih =>
    rcases List.mem_cons.mp hx with hc | hc
    · subst hc
      have hys : 0 ≤ ys.sum :=
        List.sum_nonneg (fun z hz => h0 z (List.mem_cons_of_mem _ hz))
      simpa using add_pos_of_pos_of_nonneg hpos hys
    · have hy : 0 ≤ y := h0 y (List.mem_cons_self _ _)
      have := ih (fun z hz => h0 z (List.mem_cons_of_mem _ hz)) hc
      simpa using add_pos_of_nonneg_of_pos hy this

theorem person_weights_eq_sum (ps : List PositionRow) (name : String) :
    person_weights ps name
      = ((ps.filter (fun p => decide (p.name = name))).map (fun p => p.weight)).sum := by
  suffices h : ∀ a : ℚ, ps.foldl (fun acc p => if p.name = name then acc + p.weight else acc) a
      = a + ((ps.filter (fun p => decide (p.name = name))).map (fun p => p.weight)).sum by
    simpa [person_weights] using h 0
  induction ps with
  | nil => intro a; simp
  | cons p t ih =>
    intro a
    by_cases hp : p.name = name
    · simp [List.filter_cons, hp, ih, add_assoc]
    · simp [List.filter_cons, hp, ih]

/-! ### Claim C9: the ticker formatter -/

/-- Claim C9: get_formatted_ticker is a pure total function such that NYSE and
NASDAQ map to the raw symbol unchanged, HKG/EPA/LON/CVE/XETRA append their
fixed suffixes, TSE appends its suffix with a share-class marker injected
before it, and every unrecognized exchange code maps to the raw symbol
unchanged. -/
theorem ticker_formatter_C9 (t ex : String)
    (hex : ex ∉ ["NYSE", "NASDAQ", "HKG", "EPA", "LON", "TSE", "CVE", "XETRA"]) :
    get_formatted_ticker t "NYSE" = t ∧
    get_formatted_ticker t "NASDAQ" = t ∧
    get_formatted_ticker t "HKG" = t ++ ".HK" ∧
    get_formatted_ticker t "EPA" = t ++ ".PA" ∧
    get_formatted_ticker t "LON" = t ++ ".L" ∧
    get_formatted_ticker t "TSE" = (t ++ "-A") ++ ".TO" ∧
    get_formatted_ticker t "CVE" = t ++ ".V" ∧
    get_formatted_ticker t "XETRA" = t ++ ".DE" ∧
    get_formatted_ticker t ex = t := by
  simp only [List.mem_cons, List.not_mem_nil, or_false, not_or] at hex
  obtain ⟨h1, h2, h3, h4, h5, h6, h7, h8⟩ := hex
  refine ⟨?_, ?_, ?_, ?_, ?_, ?_, ?_, ?_, ?_⟩ <;>
    simp +decide [get_formatted_ticker, h1, h2, h3, h4, h5, h6, h7, h8,
      str_append_assoc]

/-- Witness for C9 at the raw symbol CTC and the unknown exchange code TSX. -/
theorem ticker_formatter_C9_witness :
    get_formatted_ticker "CTC" "NYSE" = "CTC" ∧
    get_formatted_ticker "CTC" "NASDAQ" = "CTC" ∧
    get_formatted_ticker "CTC" "HKG" = "CTC" ++ ".HK" ∧
    get_formatted_ticker "CTC" "EPA" = "CTC" ++ ".PA" ∧
    get_formatted_ticker "CTC" "LON" = "CTC" ++ ".L" ∧
    get_formatted_ticker "CTC" "TSE" = ("CTC" ++ "-A") ++ ".TO" ∧
    get_formatted_ticker "CTC" "CVE" = "CTC" ++ ".V" ∧
    get_formatted_ticker "CTC" "XETRA" = "CTC" ++ ".DE" ∧
    get_formatted_ticker "CTC" "TSX" = "CTC" :=
  ticker_formatter_C9 "CTC" "TSX" (by decide)

/-! ### Claim C8: weight normalization -/

/-- Claim C8: for every participant whose positions have a non-zero weight
total, the sum of the normalized weights weight / weight_total over that
participant's positions is exactly 1 (hence within 1e-6 of 1.0), even when the
raw weights do not sum to 1. -/
theorem weight_normalization_C8 (ps : List PositionRow) (name : String)
    (h : person_weights ps name ≠ 0) :
    ((ps.filter (fun p => decide (p.name = name))).map
        (fun p => p.weight / person_weights ps name)).sum = 1 ∧
    |((ps.filter (fun p => decide (p.name = name))).map
        (fun p => p.weight / person_weights ps name)).sum - 1| < 1 / 1000000 := by
  have key : ((ps.filter (fun p => decide (p.name = name))).map
      (fun p => p.weight / person_weights ps name)).sum = 1 := by
    simp only [div_eq_mul_inv]
    rw [List.sum_map_mul_right, ← person_weights_eq_sum,
      mul_inv_cancel₀ h]
  refine ⟨key, ?_⟩
  rw [key]
  norm_num

/-- Witness for C8: a participant whose raw weights sum to 3/4, not 1. -/
theorem weight_normalization_C8_witness :
    List.sum
      ((([⟨"A", "X", "NYSE", 1/2, "X", none, none, none⟩,
          ⟨"A", "Y", "NYSE", 1/4, "Y", none, none, none⟩] :
           List PositionRow).filter (fun p => decide (p.name = "A"))).map
        (fun p => p.weight / person_weights
          [⟨"A", "X", "NYSE", 1/2, "X", none, none, none⟩,
           ⟨"A", "Y", "NYSE", 1/4, "Y", none, none, none⟩] "A")) = 1 :=
  (weight_normalization_C8
    [⟨"A", "X", "NYSE", 1/2, "X", none, none, none⟩,
     ⟨"A", "Y", "NYSE", 1/4, "Y", none, none, none⟩] "A"
    (by norm_num [person_weights])).1

end StocksPicking

namespace StocksPicking

/-! ### Claim C6: the performance summarizer formulas -/

/-- Claim C6: for a participant with a non-empty date-ordered value series
(and non-degenerate data), the summarizer stores
total_return_pct = (final/initial - 1) * 100 and
annualized_return_pct = ((final/initial) ** (1/years) - 1) * 100 with
years = days/365.25; and when the span is exactly one year (years = 1) the
two metrics coincide, both being 20.0 for initial 100000 and final 120000. -/
theorem performance_summarizer_C6 (cd : ℕ) (name : String) (pvals : List ValueRow)
    (fr lr : ValueRow)
    (hfr : (sortValueRows (pvals.filter (fun r => decide (r.name = name)))).head? = some fr)
    (hlr : (sortValueRows (pvals.filter (fun r => decide (r.name = name)))).getLast? = some lr)
    (hv : fr.value ≠ 0) (hd : lr.date - fr.date ≠ 0) :
    calc_metric cd name pvals = .ok (some
      { name := name
        initial_value := fr.value
        final_value := lr.value
        total_return_pct := (lr.value / fr.value - 1) * 100
        annualized_return_pct :=
          annualized_formula ((lr.value / fr.value : ℚ) : ℝ)
            ((((lr.date - fr.date : ℕ) : ℚ) / 365.25 : ℚ) : ℝ)
        last_updated := cd })
    ∧ annualized_formula ((120000 : ℝ) / 100000) 1 = 20
    ∧ (((120000 : ℚ) / 100000) - 1) * 100 = 20 := by
  refine ⟨?_, ?_, by norm_num⟩
  · have hy : ¬ (((lr.date - fr.date : ℕ) : ℚ) / 365.25 = 0) := by
      rw [div_eq_zero_iff]
      push_neg
      constructor
      · exact_mod_cast hd
      · norm_num
    simp only [calc_metric, hfr, hlr]
    rw [if_neg hv, if_neg hy]
  · unfold annualized_formula
    norm_num [Real.rpow_one]

/-- Witness for C6: two rows spanning 365 days with values 100000 and 120000. -/
theorem performance_summarizer_C6_witness :
    calc_metric 7 "P" [⟨0, "P", 100000, 0⟩, ⟨365, "P", 120000, 20⟩] = .ok (some
      { name := "P"
        initial_value := (⟨0, "P", 100000, 0⟩ : ValueRow).value
        final_value := (⟨365, "P", 120000, 20⟩ : ValueRow).value
        total_return_pct := ((⟨365, "P", 120000, 20⟩ : ValueRow).value
          / (⟨0, "P", 100000, 0⟩ : ValueRow).value - 1) * 100
        annualized_return_pct :=
          annualized_formula
            (((⟨365, "P", 120000, 20⟩ : ValueRow).value
              / (⟨0, "P", 100000, 0⟩ : ValueRow).value : ℚ) : ℝ)
            (((((⟨365, "P", 120000, 20⟩ : ValueRow).date
              - (⟨0, "P", 100000, 0⟩ : ValueRow).date : ℕ) : ℚ) / 365.25 : ℚ) : ℝ)
        last_updated := 7 })
    ∧ annualized_formula ((120000 : ℝ) / 100000) 1 = 20
    ∧ (((120000 : ℚ) / 100000) - 1) * 100 = 20 :=
  performance_summarizer_C6 7 "P" [⟨0, "P", 100000, 0⟩, ⟨365, "P", 120000, 20⟩]
    ⟨0, "P", 100000, 0⟩ ⟨365, "P", 120000, 20⟩ (by decide) (by decide)
    (by norm_num) (by decide)

end StocksPicking

namespace StocksPicking

/-! ### Claim C7: degenerate series in the summarizer -/

/-- Counterexample to claim C7: on a single-day series the summarizer does not
fail with a dedicated DegenerateSeriesError; no such error exists in the code. -/
theorem summarizer_degenerate_C7_counterexample :
    calc_metric 0 "P" [⟨0, "P", 100000, 0⟩]
      ≠ Except.error PyError.degenerateSeriesError := by
  have h : calc_metric 0 "P" [⟨0, "P", 100000, 0⟩]
      = Except.error PyError.zeroDivisionError := by
    simp [calc_metric, sortValueRows, insertValueRow]
  rw [h]
  simp

/-- Claim C7 as amended: when a participant's value series spans zero days,
the summarizer fails by raising rather than silently producing inf or NaN,
but the raised error is the generic division-by-zero error coming from the
expression 1/years (line 770), not an error named DegenerateSeriesError. -/
theorem summarizer_degenerate_C7 (cd : ℕ) (name : String) (pvals : List ValueRow)
    (fr lr : ValueRow)
    (hfr : (sortValueRows (pvals.filter (fun r => decide (r.name = name)))).head? = some fr)
    (hlr : (sortValueRows (pvals.filter (fun r => decide (r.name = name)))).getLast? = some lr)
    (hspan : lr.date = fr.date) :
    calc_metric cd name pvals = .error PyError.zeroDivisionError := by
  simp only [calc_metric, hfr, hlr]
  by_cases hv : fr.value = 0
  · rw [if_pos hv]
  · rw [if_neg hv, if_pos]
    rw [hspan, Nat.sub_self]
    norm_num

/-- Witness for the amended C7 at a concrete single-day series. -/
theorem summarizer_degenerate_C7_witness :
    calc_metric 3 "Q" [⟨17, "Q", 50000, 0⟩] = .error PyError.zeroDivisionError :=
  summarizer_degenerate_C7 3 "Q" [⟨17, "Q", 50000, 0⟩]
    ⟨17, "Q", 50000, 0⟩ ⟨17, "Q", 50000, 0⟩ (by decide) (by decide) rfl

end StocksPicking

namespace StocksPicking

/-! ### Claim C1: the currency normalizer -/

/-- Claim C1, code bug: the per-currency ticker lists are built with one entry
per position row, so a foreign-currency ticker held by two participants — as
0700.HK is, by Apoorva and Abhi, in the shipped position list — goes through
the conversion loop twice and is persisted as price × rate × rate instead of
the specified price × rate.  With price 10 HKD and rate 1/8 on the same date,
the code stores 5/32 where the contract says 10 × 1/8 = 5/4.  A single
conversion (convertSeries) does implement the specified inner join, and an
empty FX series drops every price, as the claim requires. -/
theorem currency_normalizer_C1_bug :
    tickersOfCur fixedRows "HKD" = ["0700.HK", "0700.HK"]
    ∧ convertPass [(0, (1 : ℚ)/8)] (tickersOfCur fixedRows "HKD")
        (fun _ => [(0, (10 : ℚ))]) "0700.HK" = [(0, (5 : ℚ)/32)]
    ∧ (10 : ℚ) * (1/8) = 5/4
    ∧ ((5 : ℚ)/32) ≠ 5/4
    ∧ convertSeries [(0, (10 : ℚ))] [(0, (1 : ℚ)/8)] = [(0, (5 : ℚ)/4)]
    ∧ (∀ s : Series, convertSeries s [] = []) := by
  have h1 : tickersOfCur fixedRows "HKD" = ["0700.HK", "0700.HK"] := by decide
  refine ⟨h1, ?_, by norm_num, by norm_num, ?_, ?_⟩
  · rw [h1]
    norm_num [convertPass, updateCol, convertSeries, seriesLookup,
      List.find?_cons, List.filterMap_cons]
  · norm_num [convertSeries, seriesLookup, List.find?_cons, List.filterMap_cons]
  · intro s
    simp [convertSeries, seriesLookup, List.find?]

/-! ### Sortedness of the valuation date list -/

theorem mem_insertNat {a d : ℕ} : ∀ {l : List ℕ}, a ∈ insertNat d l ↔ a = d ∨ a ∈ l := by
  intro l
  induction l with
  | nil => simp [insertNat]
  | cons x xs ih =>
    simp only [insertNat]
    by_cases h : d ≤ x
    · rw [if_pos h]
      simp [List.mem_cons]
    · rw [if_neg h]
      simp only [List.mem_cons, ih]
      tauto

theorem mem_sortAsc {a : ℕ} : ∀ {l : List ℕ}, a ∈ sortAsc l ↔ a ∈ l := by
  intro l
  induction l with
  | nil => simp [sortAsc]
  | cons x xs ih =>
    show a ∈ insertNat x (sortAsc xs) ↔ _
    rw [mem_insertNat]
    simp [ih]

theorem sorted_insertNat {d : ℕ} : ∀ {l : List ℕ},
    l.Sorted (· ≤ ·) → (insertNat d l).Sorted (· ≤ ·) := by
  intro l
  induction l with
  | nil => intro _; simp [insertNat]
  | cons x xs ih =>
    intro h
    simp only [insertNat]
    by_cases hdx : d ≤ x
    · rw [if_pos hdx]
      refine List.sorted_cons.mpr ⟨?_, h⟩
      intro b hb
      rcases List.mem_cons.mp hb with hc | hc
      · omega
      · have := List.rel_of_sorted_cons h b hc
        omega
    · rw [if_neg hdx]
      refine List.sorted_cons.mpr ⟨?_, ih (List.sorted_cons.mp h).2⟩
      intro b hb
      rcases mem_insertNat.mp hb with hc | hc
      · omega
      · exact List.rel_of_sorted_cons h b hc

theorem sorted_sortAsc : ∀ (l : List ℕ), (sortAsc l).Sorted (· ≤ ·) := by
  intro l
  induction l with
  | nil => simp [sortAsc]
  | cons x xs ih => exact sorted_insertNat ih

/-! ### Claim C2: the valuation engine -/

/-- Claim C2: for every participant and date, the portfolio value is the sum
over that participant's share-bearing positions of shares × price, a position
with no price row on a date contributing 0; the valuation dates are exactly
the price dates at or after the anchor and start with the anchor itself; and
pct_change is relative to the participant's value on that first date, the
first date's pct_change being 0. -/
theorem valuation_engine_C2 (prices : List PriceRow) (ps : List PositionRow)
    (name : String) (anchor d : ℕ)
    (hmem : anchor ∈ prices.map PriceRow.date)
    (hnz : daily_value prices ps name ((valuation_dates prices anchor).head?.getD 0) ≠ 0) :
    daily_value prices ps name d =
      (((share_positions ps).filter (fun p => decide (p.name = name))).map
        (fun p => position_value prices d p)).sum
    ∧ (∀ t, t ∈ valuation_dates prices anchor ↔
        (t ∈ prices.map PriceRow.date ∧ anchor ≤ t))
    ∧ (valuation_dates prices anchor).head? = some anchor
    ∧ (∀ t, pct_change (daily_value prices ps name)
          ((valuation_dates prices anchor).head?.getD 0) t
        = (daily_value prices ps name t
            / daily_value prices ps name ((valuation_dates prices anchor).head?.getD 0)
            - 1) * 100)
    ∧ pct_change (daily_value prices ps name)
        ((valuation_dates prices anchor).head?.getD 0)
        ((valuation_dates prices anchor).head?.getD 0) = 0 := by
  have hdates : ∀ t, t ∈ valuation_dates prices anchor ↔
      (t ∈ prices.map PriceRow.date ∧ anchor ≤ t) := by
    intro t
    unfold valuation_dates
    rw [mem_sortAsc, List.mem_dedup, List.mem_filter]
    simp
  have hhead : (valuation_dates prices anchor).head? = some anchor := by
    have hin : anchor ∈ valuation_dates prices anchor :=
      (hdates anchor).mpr ⟨hmem, le_refl anchor⟩
    have hsorted : (valuation_dates prices anchor).Sorted (· ≤ ·) :=
      sorted_sortAsc _
    cases hL : valuation_dates prices anchor with
    | nil => rw [hL] at hin; simp at hin
    | cons h t =>
      rw [hL] at hin hsorted
      have hh : anchor ≤ h := by
        have := (hdates h).mp (by rw [hL]; exact List.mem_cons_self h t)
        exact this.2
      have hle : h ≤ anchor := by
        rcases List.mem_cons.mp hin with hc | hc
        · omega
        · exact List.rel_of_sorted_cons hsorted anchor hc
      have : h = anchor := le_antisymm hle hh
      simp [this]
  refine ⟨?_, hdates, hhead, fun t => rfl, ?_⟩
  · unfold daily_value
    simpa using foldl_add_eq_sum (fun p => position_value prices d p)
      (((share_positions ps).filter (fun p => decide (p.name = name)))) 0
  · unfold pct_change
    rw [div_self hnz]
    norm_num

/-- Witness for C2: one participant holding 4000 shares of a stock priced 10
at the anchor date 0 and 12 at date 1; the value rises from 40000 to 48000 and
the pct_change from 0 to 20. -/
theorem valuation_engine_C2_witness :
    (daily_value [⟨0, "TSM", 10⟩, ⟨1, "TSM", 12⟩]
        [⟨"P", "TSM", "NYSE", 1, "TSM", some 4000, some 10, some 40000⟩] "P" 1 =
      (((share_positions
        [⟨"P", "TSM", "NYSE", 1, "TSM", some 4000, some 10, some 40000⟩]).filter
          (fun p => decide (p.name = "P"))).map
        (fun p => position_value [⟨0, "TSM", 10⟩, ⟨1, "TSM", 12⟩] 1 p)).sum
    ∧ (∀ t, t ∈ valuation_dates [⟨0, "TSM", 10⟩, ⟨1, "TSM", 12⟩] 0 ↔
        (t ∈ ([⟨0, "TSM", 10⟩, ⟨1, "TSM", 12⟩] : List PriceRow).map PriceRow.date ∧ 0 ≤ t))
    ∧ (valuation_dates [⟨0, "TSM", 10⟩, ⟨1, "TSM", 12⟩] 0).head? = some 0
    ∧ (∀ t, pct_change (daily_value [⟨0, "TSM", 10⟩, ⟨1, "TSM", 12⟩]
          [⟨"P", "TSM", "NYSE", 1, "TSM", some 4000, some 10, some 40000⟩] "P")
          ((valuation_dates [⟨0, "TSM", 10⟩, ⟨1, "TSM", 12⟩] 0).head?.getD 0) t
        = (daily_value [⟨0, "TSM", 10⟩, ⟨1, "TSM", 12⟩]
            [⟨"P", "TSM", "NYSE", 1, "TSM", some 4000, some 10, some 40000⟩] "P" t
            / daily_value [⟨0, "TSM", 10⟩, ⟨1, "TSM", 12⟩]
              [⟨"P", "TSM", "NYSE", 1, "TSM", some 4000, some 10, some 40000⟩] "P"
              ((valuation_dates [⟨0, "TSM", 10⟩, ⟨1, "TSM", 12⟩] 0).head?.getD 0)
            - 1) * 100)
    ∧ pct_change (daily_value [⟨0, "TSM", 10⟩, ⟨1, "TSM", 12⟩]
        [⟨"P", "TSM", "NYSE", 1, "TSM", some 4000, some 10, some 40000⟩] "P")
        ((valuation_dates [⟨0, "TSM", 10⟩, ⟨1, "TSM", 12⟩] 0).head?.getD 0)
        ((valuation_dates [⟨0, "TSM", 10⟩, ⟨1, "TSM", 12⟩] 0).head?.getD 0) = 0)
    ∧ daily_value [⟨0, "TSM", 10⟩, ⟨1, "TSM", 12⟩]
        [⟨"P", "TSM", "NYSE", 1, "TSM", some 4000, some 10, some 40000⟩] "P" 0 = 40000
    ∧ daily_value [⟨0, "TSM", 10⟩, ⟨1, "TSM", 12⟩]
        [⟨"P", "TSM", "NYSE", 1, "TSM", some 4000, some 10, some 40000⟩] "P" 1 = 48000
    ∧ pct_change (daily_value [⟨0, "TSM", 10⟩, ⟨1, "TSM", 12⟩]
        [⟨"P", "TSM", "NYSE", 1, "TSM", some 4000, some 10, some 40000⟩] "P") 0 1 = 20 :=
  ⟨valuation_engine_C2 [⟨0, "TSM", 10⟩, ⟨1, "TSM", 12⟩]
      [⟨"P", "TSM", "NYSE", 1, "TSM", some 4000, some 10, some 40000⟩] "P" 0 1
      (by decide)
      (by norm_num [valuation_dates, sortAsc, insertNat, daily_value, share_positions,
        position_value, priceDictAt]),
   by norm_num [daily_value, share_positions, position_value, priceDictAt],
   by norm_num [daily_value, share_positions, position_value, priceDictAt],
   by norm_num [pct_change, daily_value, share_positions, position_value, priceDictAt]⟩

end StocksPicking

namespace StocksPicking

/-! ### Claim C3: the allocation calculator -/

theorem foldl_applyUpdate_map (us : List AllocUpdate) :
    ∀ ps : List PositionRow, us.foldl applyUpdate ps
      = ps.map (fun p => us.foldl (fun q u => applyOne u q) p) := by
  induction us with
  | nil => intro ps; simp
  | cons u us ih =>
    intro ps
    show us.foldl applyUpdate (applyUpdate ps u) = _
    rw [applyUpdate, ih, List.map_map]
    rfl

theorem foldl_applyOne_fixed (q : PositionRow) :
    ∀ us : List AllocUpdate, (∀ u ∈ us, applyOne u q = q) →
      us.foldl (fun r u => applyOne u r) q = q := by
  intro us
  induction us with
  | nil => intro _; rfl
  | cons u us ih =>
    intro h
    show us.foldl _ (applyOne u q) = q
    rw [h u (List.mem_cons_self u us)]
    exact ih (fun v hv => h v (List.mem_cons_of_mem _ hv))

theorem foldl_applyOne_of_not_match (p : PositionRow) :
    ∀ us : List AllocUpdate,
      (∀ u ∈ us, ¬(p.name = u.name ∧ p.ticker = u.ticker)) →
      us.foldl (fun q u => applyOne u q) p = p := by
  intro us h
  refine foldl_applyOne_fixed p us (fun u hu => ?_)
  rw [applyOne, if_neg (h u hu)]

theorem applyOne_self_idem (u : AllocUpdate) (p : PositionRow)
    (hm : p.name = u.name ∧ p.ticker = u.ticker) :
    applyOne u (applyOne u p) = applyOne u p := by
  simp [applyOne, hm.1, hm.2]

theorem foldl_applyOne_of_match (p : PositionRow) (u0 : AllocUpdate)
    (hm : p.name = u0.name ∧ p.ticker = u0.ticker) :
    ∀ us : List AllocUpdate, u0 ∈ us →
      (∀ u ∈ us, (p.name = u.name ∧ p.ticker = u.ticker) → u = u0) →
      us.foldl (fun q u => applyOne u q) p = applyOne u0 p := by
  intro us
  induction us with
  | nil => intro h _; simp at h
  | cons u us ih =>
    intro hmem huniq
    by_cases hmu : p.name = u.name ∧ p.ticker = u.ticker
    · have hu0 : u = u0 := huniq u (List.mem_cons_self u us) hmu
      subst hu0
      show us.foldl _ (applyOne u p) = applyOne u p
      refine foldl_applyOne_fixed (applyOne u p) us (fun v hv => ?_)
      by_cases hmv : (applyOne u p).name = v.name ∧ (applyOne u p).ticker = v.ticker
      · have hpv : p.name = v.name ∧ p.ticker = v.ticker := by
          rw [applyOne, if_pos hm] at hmv
          exact hmv
        have : v = u := huniq v (List.mem_cons_of_mem _ hv) hpv
        subst this
        exact applyOne_self_idem v p hm
      · rw [applyOne, if_neg hmv]
    · have hu0 : u0 ∈ us := by
        rcases List.mem_cons.mp hmem with hc | hc
        · exact absurd (hc ▸ hm) hmu
        · exact hc
      show us.foldl _ (applyOne u p) = applyOne u0 p
      rw [applyOne, if_neg hmu]
      exact ih hu0 (fun v hv hmv => huniq v (List.mem_cons_of_mem _ hv) hmv)

theorem position_updates_mem (prices : List PriceRow) (anchor : ℕ)
    (ps : List PositionRow) (u : AllocUpdate) :
    u ∈ position_updates prices anchor ps ↔
      ∃ q ∈ ps, ∃ pr, priceAt prices anchor q.formatted_ticker = some pr ∧
        u = mkUpdate ps q pr := by
  unfold position_updates
  rw [List.mem_filterMap]
  constructor
  · rintro ⟨q, hq, hu⟩
    cases hpr : priceAt prices anchor q.formatted_ticker with
    | none => rw [hpr] at hu; simp at hu
    | some pr =>
      rw [hpr] at hu
      simp only [Option.map_some'] at hu
      exact ⟨q, hq, pr, hpr, (Option.some.inj hu).symm⟩
  · rintro ⟨q, hq, pr, hpr, hu⟩
    exact ⟨q, hq, by rw [hpr]; simp [hu]⟩

theorem same_identity_eq {ps : List PositionRow}
    (hU : ps.Pairwise (fun p q => p.name ≠ q.name ∨ p.ticker ≠ q.ticker))
    {p q : PositionRow} (hp : p ∈ ps) (hq : q ∈ ps)
    (hn : q.name = p.name) (ht : q.ticker = p.ticker) : q = p := by
  by_contra hne
  have hsymm : Symmetric (fun p q : PositionRow => p.name ≠ q.name ∨ p.ticker ≠ q.ticker) :=
    fun a b h => h.imp Ne.symm Ne.symm
  have := hU.forall hsymm hq hp hne
  rcases this with hc | hc
  · exact hc hn
  · exact hc ht

/-- Claim C3: every position is allocated
allocation_amount = FIXED_CAPITAL × (weight / weight_total); when the ticker
has an anchor price pr, the stored row carries shares = allocation/pr,
price_at_start = pr and allocation_usd = shares × pr (the realized amount,
recorded separately); when the ticker has no anchor price row the position is
left untouched (its allocation fields stay NULL) and the run still returns
normally. -/
theorem allocation_calculator_C3 (prices : List PriceRow) (anchor : ℕ)
    (ps : List PositionRow)
    (hU : ps.Pairwise (fun p q => p.name ≠ q.name ∨ p.ticker ≠ q.ticker))
    (p : PositionRow) (hp : p ∈ ps) :
    alloc_amount ps p = INITIAL_VALUE_USD * (p.weight / person_weights ps p.name)
    ∧ (∀ pr, priceAt prices anchor p.formatted_ticker = some pr →
        { p with shares := some (alloc_amount ps p / pr),
                 price_at_start := some pr,
                 allocation_usd := some (alloc_amount ps p / pr * pr) }
          ∈ alloc_apply prices anchor ps)
    ∧ (priceAt prices anchor p.formatted_ticker = none →
        p ∈ alloc_apply prices anchor ps)
    ∧ (∀ fd a, resolve_anchor prices fd = some a →
        alloc_result fd prices ps = .ok (alloc_apply prices a ps)) := by
  have key : ∀ u, u ∈ position_updates prices anchor ps →
      (p.name = u.name ∧ p.ticker = u.ticker) →
      ∃ pr, priceAt prices anchor p.formatted_ticker = some pr ∧ u = mkUpdate ps p pr := by
    intro u hu hmu
    rcases (position_updates_mem prices anchor ps u).mp hu with ⟨q, hq, pr, hpr, hueq⟩
    have hqname : q.name = p.name := by rw [hmu.1, hueq]; rfl
    have hqticker : q.ticker = p.ticker := by rw [hmu.2, hueq]; rfl
    have hqp : q = p := same_identity_eq hU hp hq hqname hqticker
    subst hqp
    exact ⟨pr, hpr, hueq⟩
  refine ⟨rfl, ?_, ?_, ?_⟩
  · intro pr hpr
    have humem : mkUpdate ps p pr ∈ position_updates prices anchor ps :=
      (position_updates_mem prices anchor ps _).mpr ⟨p, hp, pr, hpr, rfl⟩
    have hm : p.name = (mkUpdate ps p pr).name ∧ p.ticker = (mkUpdate ps p pr).ticker :=
      ⟨rfl, rfl⟩
    have hfold : (position_updates prices anchor ps).foldl (fun q u => applyOne u q) p
        = applyOne (mkUpdate ps p pr) p := by
      refine foldl_applyOne_of_match p (mkUpdate ps p pr) hm _ humem ?_
      intro u hu hmu
      rcases key u hu hmu with ⟨pr2, hpr2, hueq⟩
      rw [hpr] at hpr2
      rw [hueq, Option.some.inj hpr2]
    have hmem2 : applyOne (mkUpdate ps p pr) p ∈ alloc_apply prices anchor ps := by
      unfold alloc_apply
      rw [foldl_applyUpdate_map]
      exact List.mem_map.mpr ⟨p, hp, hfold⟩
    have heq : applyOne (mkUpdate ps p pr) p
        = { p with shares := some (alloc_amount ps p / pr),
                   price_at_start := some pr,
                   allocation_usd := some (alloc_amount ps p / pr * pr) } := by
      rw [applyOne, if_pos hm]
      rfl
    rwa [heq] at hmem2
  · intro hpr
    have hfold : (position_updates prices anchor ps).foldl (fun q u => applyOne u q) p
        = p := by
      refine foldl_applyOne_of_not_match p _ (fun u hu hmu => ?_)
      rcases key u hu hmu with ⟨pr2, hpr2, _⟩
      rw [hpr] at hpr2
      exact Option.noConfusion hpr2
    unfold alloc_apply
    rw [foldl_applyUpdate_map]
    exact List.mem_map.mpr ⟨p, hp, hfold⟩
  · intro fd a ha
    unfold alloc_result
    rw [ha]

/-- Witness for C3: a participant with weights [0.4, 0.3, 0.3] and anchor
prices [10, 20, 50] gets allocations [40000, 30000, 30000] and shares
[4000, 1500, 600]; the stored row for the first position is exhibited via the
theorem and the full update list is computed. -/
theorem allocation_calculator_C3_witness :
    (alloc_amount
        [⟨"P", "A", "NYSE", 2/5, "A", none, none, none⟩,
         ⟨"P", "B", "NYSE", 3/10, "B", none, none, none⟩,
         ⟨"P", "C", "NYSE", 3/10, "C", none, none, none⟩]
        ⟨"P", "A", "NYSE", 2/5, "A", none, none, none⟩
      = INITIAL_VALUE_USD * ((2/5) / person_weights
          [⟨"P", "A", "NYSE", 2/5, "A", none, none, none⟩,
           ⟨"P", "B", "NYSE", 3/10, "B", none, none, none⟩,
           ⟨"P", "C", "NYSE", 3/10, "C", none, none, none⟩] "P"))
    ∧ ({ (⟨"P", "A", "NYSE", 2/5, "A", none, none, none⟩ : PositionRow) with
          shares := some (40000 / 10),
          price_at_start := some 10,
          allocation_usd := some (40000 / 10 * 10) }
        ∈ alloc_apply [⟨0, "A", 10⟩, ⟨0, "B", 20⟩, ⟨0, "C", 50⟩] 0
          [⟨"P", "A", "NYSE", 2/5, "A", none, none, none⟩,
           ⟨"P", "B", "NYSE", 3/10, "B", none, none, none⟩,
           ⟨"P", "C", "NYSE", 3/10, "C", none, none, none⟩])
    ∧ position_updates [⟨0, "A", 10⟩, ⟨0, "B", 20⟩, ⟨0, "C", 50⟩] 0
        [⟨"P", "A", "NYSE", 2/5, "A", none, none, none⟩,
         ⟨"P", "B", "NYSE", 3/10, "B", none, none, none⟩,
         ⟨"P", "C", "NYSE", 3/10, "C", none, none, none⟩]
      = [⟨"P", "A", 4000, 10, 40000⟩, ⟨"P", "B", 1500, 20, 30000⟩,
         ⟨"P", "C", 600, 50, 30000⟩] := by
  have h := allocation_calculator_C3 [⟨0, "A", 10⟩, ⟨0, "B", 20⟩, ⟨0, "C", 50⟩] 0
    [⟨"P", "A", "NYSE", 2/5, "A", none, none, none⟩,
     ⟨"P", "B", "NYSE", 3/10, "B", none, none, none⟩,
     ⟨"P", "C", "NYSE", 3/10, "C", none, none, none⟩]
    (by decide) ⟨"P", "A", "NYSE", 2/5, "A", none, none, none⟩
    (List.mem_cons_self _ _)
  refine ⟨h.1, ?_, ?_⟩
  · have h2 := h.2.1 10 (by norm_num [priceAt, List.find?_cons])
    have halloc : alloc_amount
        [⟨"P", "A", "NYSE", 2/5, "A", none, none, none⟩,
         ⟨"P", "B", "NYSE", 3/10, "B", none, none, none⟩,
         ⟨"P", "C", "NYSE", 3/10, "C", none, none, none⟩]
        ⟨"P", "A", "NYSE", 2/5, "A", none, none, none⟩ = 40000 := by
      norm_num [alloc_amount, person_weights, INITIAL_VALUE_USD]
    rwa [halloc] at h2
  · norm_num +decide [position_updates, mkUpdate, priceAt, alloc_amount, person_weights,
      INITIAL_VALUE_USD, List.filterMap_cons, List.filter_cons, List.find?_cons]

end StocksPicking

namespace StocksPicking

/-! ### Claim C10: the valuation divisor -/

theorem getLast?_mem {α : Type} : ∀ {l : List α} {a : α}, l.getLast? = some a → a ∈ l := by
  intro l
  induction l with
  | nil => intro a h; simp at h
  | cons x xs ih =>
    intro a h
    cases xs with
    | nil =>
      simp only [List.getLast?_singleton, Option.some.injEq] at h
      simp [h]
    | cons y ys =>
      rw [List.getLast?_cons_cons] at h
      exact List.mem_cons_of_mem x (ih h)

theorem mem_foldl_append_rows (rows : String → List ValueRow) (r : ValueRow) :
    ∀ (names : List String) (acc : List ValueRow),
      r ∈ names.foldl (fun a n => a ++ rows n) acc ↔
        r ∈ acc ∨ ∃ n ∈ names, r ∈ rows n := by
  intro names
  induction names with
  | nil => intro acc; simp
  | cons n ns ih =>
    intro acc
    show r ∈ ns.foldl _ (acc ++ rows n) ↔ _
    rw [ih]
    simp only [List.mem_append, List.mem_cons]
    constructor
    · rintro ((hc | hc) | ⟨m, hm, hr⟩)
      · exact Or.inl hc
      · exact Or.inr ⟨n, Or.inl rfl, hc⟩
      · exact Or.inr ⟨m, Or.inr hm, hr⟩
    · rintro (hc | ⟨m, hm | hm, hr⟩)
      · exact Or.inl (Or.inl hc)
      · exact Or.inl (Or.inr (hm ▸ hr))
      · exact Or.inr ⟨m, hm, hr⟩

theorem mem_valuation_names (ps : List PositionRow) (n : String) :
    n ∈ valuation_names ps ↔ ∃ p ∈ ps, p.name = n ∧ p.shares ≠ none := by
  unfold valuation_names share_positions
  rw [List.mem_dedup, List.mem_map]
  constructor
  · rintro ⟨p, hp, hn⟩
    rw [List.mem_filter] at hp
    exact ⟨p, hp.1, hn, by
      have := hp.2
      simp only [Option.isSome_iff_ne_none] at this
      exact this⟩
  · rintro ⟨p, hp, hn, hs⟩
    refine ⟨p, List.mem_filter.mpr ⟨hp, ?_⟩, hn⟩
    simpa [Option.isSome_iff_ne_none] using hs

/-- Counterexample to claim C10 as stated: under its preconditions (all stored
prices positive, every share-bearing position priced at the anchor date) the
divisor can still be 0 — a position with a non-null share count of 0 puts its
participant in the valuation set with an anchor-date value of 0, so the
division-by-zero branch of pct_change is reachable. -/
theorem valuation_divisor_C10_counterexample :
    (∀ r ∈ ([⟨0, "X", 10⟩] : List PriceRow), 0 < r.price)
    ∧ (∀ p ∈ share_positions
        [⟨"P", "X", "NYSE", 1, "X", some 0, some 10, some 100000⟩],
        priceDictAt [⟨0, "X", 10⟩] 0 p.formatted_ticker ≠ none)
    ∧ "P" ∈ valuation_names
        [⟨"P", "X", "NYSE", 1, "X", some 0, some 10, some 100000⟩]
    ∧ daily_value [⟨0, "X", 10⟩]
        [⟨"P", "X", "NYSE", 1, "X", some 0, some 10, some 100000⟩] "P" 0 = 0 := by
  refine ⟨by decide, by decide, by decide, ?_⟩
  norm_num +decide [daily_value, share_positions, position_value, priceDictAt]

/-- Claim C10 as amended: the valuation engine selects only positions with a
non-null share count and derives its participant set from that selection, so a
participant with no share-bearing position produces no portfolio_values rows;
and when additionally every stored price is positive, every share-bearing
position has a price row at the anchor date, and every stored share count is
strictly positive, the anchor-date divisor of pct_change is strictly
positive.  (Strict positivity of the share counts is necessary: with a zero
share count the divisor is 0 under the claim's original preconditions.) -/
theorem valuation_divisor_C10 (prices : List PriceRow) (ps : List PositionRow)
    (anchor : ℕ) (name : String)
    (hpos : ∀ r ∈ prices, 0 < r.price)
    (hpriced : ∀ p ∈ share_positions ps,
      priceDictAt prices anchor p.formatted_ticker ≠ none)
    (hshpos : ∀ p ∈ share_positions ps, ∀ s, p.shares = some s → 0 < s)
    (hname : name ∈ valuation_names ps) :
    0 < daily_value prices ps name anchor
    ∧ (∀ n, n ∉ valuation_names ps →
        ∀ dates r, r ∈ all_value_rows prices ps dates → r.name ≠ n)
    ∧ (∀ n, n ∈ valuation_names ps ↔ ∃ p ∈ ps, p.name = n ∧ p.shares ≠ none) := by
  have hval : ∀ p ∈ share_positions ps, 0 ≤ position_value prices anchor p := by
    intro p hp
    unfold position_value
    cases hpd : priceDictAt prices anchor p.formatted_ticker with
    | none => exact le_refl 0
    | some pr =>
      have hrmem : ∃ r, r ∈ prices ∧ r.price = pr := by
        unfold priceDictAt at hpd
        cases hlast : (prices.filter (fun r =>
            decide (r.date = anchor) && decide (r.ticker = p.formatted_ticker))).getLast? with
        | none => rw [hlast] at hpd; simp at hpd
        | some r =>
          rw [hlast] at hpd
          simp only [Option.map_some', Option.some.injEq] at hpd
          exact ⟨r, (List.mem_filter.mp (getLast?_mem hlast)).1, hpd⟩
      rcases hrmem with ⟨r, hr, hpr⟩
      have hprpos : 0 < pr := hpr ▸ hpos r hr
      cases hs : p.shares with
      | none =>
        simp [Option.getD]
      | some s =>
        have := hshpos p hp s hs
        have : 0 < pr * s := mul_pos hprpos this
        simp only [hs, Option.getD_some]
        exact le_of_lt this
  refine ⟨?_, ?_, mem_valuation_names ps⟩
  · rcases (mem_valuation_names ps name).mp hname with ⟨p0, hp0, hp0name, hp0sh⟩
    have hp0share : p0 ∈ share_positions ps := by
      unfold share_positions
      refine List.mem_filter.mpr ⟨hp0, ?_⟩
      simpa [Option.isSome_iff_ne_none] using hp0sh
    have hp0mem : p0 ∈ (share_positions ps).filter (fun p => decide (p.name = name)) :=
      List.mem_filter.mpr ⟨hp0share, by simp [hp0name]⟩
    have hp0pos : 0 < position_value prices anchor p0 := by
      unfold position_value
      cases hpd : priceDictAt prices anchor p0.formatted_ticker with
      | none => exact absurd hpd (hpriced p0 hp0share)
      | some pr =>
        have hrmem : ∃ r, r ∈ prices ∧ r.price = pr := by
          unfold priceDictAt at hpd
          cases hlast : (prices.filter (fun r =>
              decide (r.date = anchor) && decide (r.ticker = p0.formatted_ticker))).getLast? with
          | none => rw [hlast] at hpd; simp at hpd
          | some r =>
            rw [hlast] at hpd
            simp only [Option.map_some', Option.some.injEq] at hpd
            exact ⟨r, (List.mem_filter.mp (getLast?_mem hlast)).1, hpd⟩
        rcases hrmem with ⟨r, hr, hpr⟩
        have hprpos : 0 < pr := hpr ▸ hpos r hr
        cases hs : p0.shares with
        | none =>
          exact absurd hs (by simpa [Option.isSome_iff_ne_none] using hp0sh)
        | some s =>
          have := hshpos p0 hp0share s hs
          simp only [hs, Option.getD_some]
          exact mul_pos hprpos this
    unfold daily_value
    rw [foldl_add_eq_sum (fun p => position_value prices anchor p)
      ((share_positions ps).filter (fun p => decide (p.name = name))) 0]
    rw [zero_add]
    refine sum_nonneg_pos ?_ (List.mem_map_of_mem _ hp0mem) hp0pos
    intro x hx
    rcases List.mem_map.mp hx with ⟨q, hq, hqx⟩
    exact hqx ▸ hval q (List.mem_filter.mp hq).1
  · intro n hn dates r hr
    rcases (mem_foldl_append_rows (rows_for_name prices ps dates) r
        (valuation_names ps) []).mp hr with hc | ⟨m, hm, hrm⟩
    · simp at hc
    · have : r.name = m := by
        unfold rows_for_name at hrm
        rcases List.mem_map.mp hrm with ⟨d, _, hd⟩
        rw [← hd]
      intro hcontra
      rw [hcontra] at this
      exact hn (this ▸ hm)

/-- Witness for the amended C10: one participant with 4000 shares priced 10 at
the anchor has a strictly positive divisor. -/
theorem valuation_divisor_C10_witness :
    0 < daily_value [⟨0, "X", 10⟩]
        [⟨"P", "X", "NYSE", 1, "X", some 4000, some 10, some 40000⟩] "P" 0
    ∧ (∀ n, n ∉ valuation_names
          [⟨"P", "X", "NYSE", 1, "X", some 4000, some 10, some 40000⟩] →
        ∀ dates r, r ∈ all_value_rows [⟨0, "X", 10⟩]
          [⟨"P", "X", "NYSE", 1, "X", some 4000, some 10, some 40000⟩] dates →
          r.name ≠ n)
    ∧ (∀ n, n ∈ valuation_names
          [⟨"P", "X", "NYSE", 1, "X", some 4000, some 10, some 40000⟩] ↔
        ∃ p ∈ [(⟨"P", "X", "NYSE", 1, "X", some 4000, some 10, some 40000⟩ : PositionRow)],
          p.name = n ∧ p.shares ≠ none) :=
  valuation_divisor_C10 [⟨0, "X", 10⟩]
    [⟨"P", "X", "NYSE", 1, "X", some 4000, some 10, some 40000⟩] 0 "P"
    (by decide) (by decide)
    (by
      intro p hp s hs
      simp [share_positions] at hp
      rw [hp] at hs
      simp only [Option.some.injEq] at hs
      rw [← hs]
      norm_num)
    (by decide)

end StocksPicking

namespace StocksPicking

/-! ### Claim C4: anchor-date resolution -/

/-- Claim C4: the anchor date is the latest price date at or before the fixed
valuation date; when no price date at or before it exists anywhere, the
allocation stage fails with the no-anchor-date error (the ValueError of line
549, which the spec names NoAnchorDateError) before issuing any UPDATE, so the
pipeline run ends with the positions table exactly as ingestion left it: the
static rows with all three allocation columns NULL. -/
theorem anchor_date_resolution_C4 (fd : ℕ) (env : Env) (db : DB)
    (h : (((download_and_save_stock_data env (save_positions_to_db db)).daily_prices.map
        PriceRow.date).filter (fun d => decide (d ≤ fd))) = []) :
    calculate_and_save_portfolio_allocations fd
        (download_and_save_stock_data env (save_positions_to_db db))
      = .error AllocError.noAnchorDate
    ∧ process_all fd env db = download_and_save_stock_data env (save_positions_to_db db)
    ∧ (process_all fd env db).positions = fixedRows
    ∧ (∀ p ∈ (process_all fd env db).positions,
        p.shares = none ∧ p.price_at_start = none ∧ p.allocation_usd = none)
    ∧ (∀ rows : List PriceRow, ∀ a, resolve_anchor rows fd = some a →
        a ∈ rows.map PriceRow.date ∧ a ≤ fd ∧
          ∀ d ∈ rows.map PriceRow.date, d ≤ fd → d ≤ a) := by
  have hres : resolve_anchor
      (download_and_save_stock_data env (save_positions_to_db db)).daily_prices fd
      = none := by
    unfold resolve_anchor
    rw [h]
    rfl
  have c1 : calculate_and_save_portfolio_allocations fd
      (download_and_save_stock_data env (save_positions_to_db db))
      = .error AllocError.noAnchorDate := by
    unfold calculate_and_save_portfolio_allocations alloc_result
    rw [hres]
    rfl
  have c2 : process_all fd env db
      = download_and_save_stock_data env (save_positions_to_db db) := by
    show (match calculate_and_save_portfolio_allocations fd
        (download_and_save_stock_data env (save_positions_to_db db)) with
      | Except.error _ => download_and_save_stock_data env (save_positions_to_db db)
      | Except.ok db3 =>
        match calculate_and_save_portfolio_values fd db3 with
        | Except.error _ => db3
        | Except.ok db4 => calculate_and_save_performance_metrics env.currentDate db4)
      = download_and_save_stock_data env (save_positions_to_db db)
    rw [c1]
  have c3 : (process_all fd env db).positions = fixedRows := by
    rw [c2]
    rfl
  refine ⟨c1, c2, c3, ?_, ?_⟩
  · rw [c3]
    decide
  · intro rows a ha
    unfold resolve_anchor at ha
    have hamem := listMax_mem ha
    rw [List.mem_filter] at hamem
    refine ⟨hamem.1, by simpa using hamem.2, ?_⟩
    intro d hd hdle
    exact le_listMax ha (List.mem_filter.mpr ⟨hd, by simpa using hdle⟩)

/-- Witness for C4: a store holding a single price dated after the valuation
date, with an empty vendor feed. -/
theorem anchor_date_resolution_C4_witness :
    calculate_and_save_portfolio_allocations 3
        (download_and_save_stock_data ⟨fun _ => [], fun _ => [], 0⟩
          (save_positions_to_db ⟨[], [⟨5, "X", 1⟩], [], [], []⟩))
      = .error AllocError.noAnchorDate
    ∧ process_all 3 ⟨fun _ => [], fun _ => [], 0⟩ ⟨[], [⟨5, "X", 1⟩], [], [], []⟩
        = download_and_save_stock_data ⟨fun _ => [], fun _ => [], 0⟩
            (save_positions_to_db ⟨[], [⟨5, "X", 1⟩], [], [], []⟩)
    ∧ (process_all 3 ⟨fun _ => [], fun _ => [], 0⟩
        ⟨[], [⟨5, "X", 1⟩], [], [], []⟩).positions = fixedRows
    ∧ (∀ p ∈ (process_all 3 ⟨fun _ => [], fun _ => [], 0⟩
        ⟨[], [⟨5, "X", 1⟩], [], [], []⟩).positions,
        p.shares = none ∧ p.price_at_start = none ∧ p.allocation_usd = none)
    ∧ (∀ rows : List PriceRow, ∀ a, resolve_anchor rows 3 = some a →
        a ∈ rows.map PriceRow.date ∧ a ≤ 3 ∧
          ∀ d ∈ rows.map PriceRow.date, d ≤ 3 → d ≤ a) :=
  anchor_date_resolution_C4 3 ⟨fun _ => [], fun _ => [], 0⟩
    ⟨[], [⟨5, "X", 1⟩], [], [], []⟩ (by decide)

end StocksPicking


namespace StocksPicking

/-! ### Stability of the incremental time-series writes -/

theorem writeDailyPrices_idem (s n : List PriceRow) :
    writeDailyPrices (writeDailyPrices s n) n = writeDailyPrices s n := by
  cases hs : listMax (s.map (fun r => r.date)) with
  | none =>
    have hsnil : s = [] := List.map_eq_nil_iff.mp (listMax_eq_none_iff.mp hs)
    subst hsnil
    have h0 : writeDailyPrices [] n = n := by
      unfold writeDailyPrices
      rfl
    rw [h0]
    unfold writeDailyPrices
    cases hn : listMax (n.map (fun r => r.date)) with
    | none => rfl
    | some m =>
      have hfil : n.filter (fun r => decide (m < r.date)) = [] := by
        rw [List.filter_eq_nil_iff]
        intro r hr
        have : r.date ≤ m := le_listMax hn (List.mem_map_of_mem _ hr)
        simp
        omega
      simp only [hfil, List.append_nil]
  | some m =>
    have hw : writeDailyPrices s n = s ++ n.filter (fun r => decide (m < r.date)) := by
      unfold writeDailyPrices
      rw [hs]
    rw [hw]
    have hne : (s ++ n.filter (fun r => decide (m < r.date))).map (fun r => r.date) ≠ [] := by
      have hmm : m ∈ s.map (fun r => r.date) := listMax_mem hs
      rw [List.map_append]
      intro hcon
      rcases List.append_eq_nil.mp hcon with ⟨h1, _⟩
      rw [h1] at hmm
      exact List.not_mem_nil m hmm
    obtain ⟨m2, hm2⟩ := listMax_isSome hne
    have hbound : ∀ r ∈ n, r.date ≤ m2 := by
      intro r hr
      by_cases hrm : r.date ≤ m
      · have hmm : m ∈ (s ++ n.filter (fun r => decide (m < r.date))).map (fun r => r.date) := by
          rw [List.map_append]
          exact List.mem_append_left _ (listMax_mem hs)
        exact le_trans hrm (le_listMax hm2 hmm)
      · have hrf : r ∈ n.filter (fun r => decide (m < r.date)) :=
          List.mem_filter.mpr ⟨hr, by simp; omega⟩
        have : r.date ∈ (s ++ n.filter (fun r => decide (m < r.date))).map (fun r => r.date) := by
          rw [List.map_append]
          exact List.mem_append_right _ (List.mem_map_of_mem _ hrf)
        exact le_listMax hm2 this
    have hfil : n.filter (fun r => decide (m2 < r.date)) = [] := by
      rw [List.filter_eq_nil_iff]
      intro r hr
      have := hbound r hr
      simp
      omega
    unfold writeDailyPrices
    rw [hm2]
    simp only [hfil, List.append_nil]

theorem curDates_append (cur : String) (s l : List RateRow) :
    curDates cur (s ++ l) = curDates cur s ++ curDates cur l := by
  unfold curDates
  rw [List.filter_append, List.map_append]

theorem mem_curDates (cur : String) (s : List RateRow) (r : RateRow) (hr : r ∈ s)
    (hc : r.from_c = cur ∧ r.to_c = "USD") : r.date ∈ curDates cur s := by
  unfold curDates
  exact List.mem_map_of_mem _ (List.mem_filter.mpr ⟨hr, by simp [hc.1, hc.2]⟩)

theorem ratesOfSeries_mem (cur : String) (s : Series) (r : RateRow)
    (hr : r ∈ ratesOfSeries cur s) : r.from_c = cur ∧ r.to_c = "USD" := by
  unfold ratesOfSeries at hr
  rcases List.mem_map.mp hr with ⟨dv, _, hdv⟩
  rw [← hdv]
  exact ⟨rfl, rfl⟩

theorem writeRates_eq_self (cur : String) (b : Bool) (s nr : List RateRow)
    (hcov : nr = [] ∨ ∃ m, listMax (curDates cur s) = some m ∧ ∀ r ∈ nr, r.date ≤ m) :
    writeRates cur b s nr = s := by
  unfold writeRates
  rcases hcov with hnil | ⟨m, hm, hb⟩
  · rw [if_pos hnil]
  · by_cases hnil : nr = []
    · rw [if_pos hnil]
    · have hfil : nr.filter (fun r => decide (m < r.date)) = [] := by
        rw [List.filter_eq_nil_iff]
        intro r hr
        have := hb r hr
        simp
        omega
      rw [if_neg hnil, hm]
      simp only [hfil, List.append_nil]

theorem writeRates_cover_self (cur : String) (b : Bool) (s nr : List RateRow)
    (hnr : ∀ r ∈ nr, r.from_c = cur ∧ r.to_c = "USD") :
    nr = [] ∨ ∃ m, listMax (curDates cur (writeRates cur b s nr)) = some m ∧
      ∀ r ∈ nr, r.date ≤ m := by
  by_cases hnil : nr = []
  · exact Or.inl hnil
  · right
    unfold writeRates
    rw [if_neg hnil]
    cases hm : listMax (curDates cur s) with
    | some m =>
      have hmm : m ∈ curDates cur (s ++ nr.filter (fun r => decide (m < r.date))) := by
        rw [curDates_append]
        exact List.mem_append_left _ (listMax_mem hm)
      obtain ⟨m2, hm2⟩ := listMax_isSome (List.ne_nil_of_mem hmm)
      refine ⟨m2, hm2, ?_⟩
      intro r hr
      by_cases hrm : r.date ≤ m
      · exact le_trans hrm (le_listMax hm2 hmm)
      · have hrf : r ∈ nr.filter (fun r => decide (m < r.date)) :=
          List.mem_filter.mpr ⟨hr, by simp; omega⟩
        have hrd : r.date ∈ curDates cur (s ++ nr.filter (fun r => decide (m < r.date))) := by
          rw [curDates_append]
          exact List.mem_append_right _ (mem_curDates cur _ r hrf (hnr r hr))
        exact le_listMax hm2 hrd
    | none =>
      obtain ⟨r0, hr0⟩ := List.exists_mem_of_ne_nil nr hnil
      cases b with
      | true =>
        have hr0d : r0.date ∈ curDates cur nr := mem_curDates cur nr r0 hr0 (hnr r0 hr0)
        obtain ⟨m2, hm2⟩ := listMax_isSome (List.ne_nil_of_mem hr0d)
        refine ⟨m2, hm2, ?_⟩
        intro r hr
        exact le_listMax hm2 (mem_curDates cur nr r hr (hnr r hr))
      | false =>
        have hr0d : r0.date ∈ curDates cur (s ++ nr) := by
          rw [curDates_append]
          exact List.mem_append_right _ (mem_curDates cur nr r0 hr0 (hnr r0 hr0))
        obtain ⟨m2, hm2⟩ := listMax_isSome (List.ne_nil_of_mem hr0d)
        refine ⟨m2, hm2, ?_⟩
        intro r hr
        refine le_listMax hm2 ?_
        rw [curDates_append]
        exact List.mem_append_right _ (mem_curDates cur nr r hr (hnr r hr))

theorem cover_mono_append (cur : String) (nr s l : List RateRow)
    (h : nr = [] ∨ ∃ m, listMax (curDates cur s) = some m ∧ ∀ r ∈ nr, r.date ≤ m) :
    nr = [] ∨ ∃ m2, listMax (curDates cur (s ++ l)) = some m2 ∧
      ∀ r ∈ nr, r.date ≤ m2 := by
  rcases h with h | ⟨m, hm, hb⟩
  · exact Or.inl h
  · right
    have hmmem : m ∈ curDates cur (s ++ l) := by
      rw [curDates_append]
      exact List.mem_append_left _ (listMax_mem hm)
    obtain ⟨m2, hm2⟩ := listMax_isSome (List.ne_nil_of_mem hmmem)
    exact ⟨m2, hm2, fun r hr => le_trans (hb r hr) (le_listMax hm2 hmmem)⟩

theorem writeRates_append_shape (cur : String) (s nr : List RateRow) :
    ∃ l, writeRates cur false s nr = s ++ l := by
  unfold writeRates
  by_cases hnil : nr = []
  · rw [if_pos hnil]
    exact ⟨[], (List.append_nil s).symm⟩
  · rw [if_neg hnil]
    cases hm : listMax (curDates cur s) with
    | some m => exact ⟨_, rfl⟩
    | none => exact ⟨nr, rfl⟩

theorem ratesStep_eq_self (env : Env) (ps : List PositionRow) (cur sym : String)
    (b : Bool) (s : List RateRow)
    (hcov : tickersOfCur ps cur = [] ∨ ratesOfSeries cur (env.fx sym) = [] ∨
      ∃ m, listMax (curDates cur s) = some m ∧
        ∀ r ∈ ratesOfSeries cur (env.fx sym), r.date ≤ m) :
    ratesStep env ps cur sym b s = s := by
  unfold ratesStep
  rcases hcov with h | h
  · rw [if_pos h]
  · by_cases hg : tickersOfCur ps cur = []
    · rw [if_pos hg]
    · rw [if_neg hg]
      exact writeRates_eq_self cur b s _ h

theorem ratesStep_cover_self (env : Env) (ps : List PositionRow) (cur sym : String)
    (b : Bool) (s : List RateRow) :
    tickersOfCur ps cur = [] ∨ ratesOfSeries cur (env.fx sym) = [] ∨
      ∃ m, listMax (curDates cur (ratesStep env ps cur sym b s)) = some m ∧
        ∀ r ∈ ratesOfSeries cur (env.fx sym), r.date ≤ m := by
  by_cases hg : tickersOfCur ps cur = []
  · exact Or.inl hg
  · have hstep : ratesStep env ps cur sym b s
        = writeRates cur b s (ratesOfSeries cur (env.fx sym)) := by
      unfold ratesStep
      rw [if_neg hg]
    rw [hstep]
    rcases writeRates_cover_self cur b s (ratesOfSeries cur (env.fx sym))
        (fun r hr => ratesOfSeries_mem cur _ r hr) with h | h
    · exact Or.inr (Or.inl h)
    · exact Or.inr (Or.inr h)

theorem ratesStep_cover_mono (env : Env) (ps : List PositionRow) (cur sym : String)
    (s l : List RateRow)
    (h : tickersOfCur ps cur = [] ∨ ratesOfSeries cur (env.fx sym) = [] ∨
      ∃ m, listMax (curDates cur s) = some m ∧
        ∀ r ∈ ratesOfSeries cur (env.fx sym), r.date ≤ m) :
    tickersOfCur ps cur = [] ∨ ratesOfSeries cur (env.fx sym) = [] ∨
      ∃ m2, listMax (curDates cur (s ++ l)) = some m2 ∧
        ∀ r ∈ ratesOfSeries cur (env.fx sym), r.date ≤ m2 := by
  rcases h with h | h
  · exact Or.inl h
  · rcases cover_mono_append cur (ratesOfSeries cur (env.fx sym)) s l h with h2 | h2
    · exact Or.inr (Or.inl h2)
    · exact Or.inr (Or.inr h2)

theorem ratesStep_shape (env : Env) (ps : List PositionRow) (cur sym : String)
    (s : List RateRow) :
    ∃ l, ratesStep env ps cur sym false s = s ++ l := by
  unfold ratesStep
  by_cases hg : tickersOfCur ps cur = []
  · rw [if_pos hg]
    exact ⟨[], (List.append_nil s).symm⟩
  · rw [if_neg hg]
    exact writeRates_append_shape cur s _

theorem ratesChain_idem (env : Env) (ps : List PositionRow) (s : List RateRow) :
    ratesChain env ps (ratesChain env ps s) = ratesChain env ps s := by
  obtain ⟨l2, hl2⟩ := ratesStep_shape env ps "EUR" "EURUSD=X"
    (ratesStep env ps "HKD" "HKDUSD=X" true s)
  obtain ⟨l3, hl3⟩ := ratesStep_shape env ps "GBP" "GBPUSD=X"
    (ratesStep env ps "EUR" "EURUSD=X" false (ratesStep env ps "HKD" "HKDUSD=X" true s))
  obtain ⟨l4, hl4⟩ := ratesStep_shape env ps "CAD" "CADUSD=X"
    (ratesStep env ps "GBP" "GBPUSD=X" false (ratesStep env ps "EUR" "EURUSD=X" false
      (ratesStep env ps "HKD" "HKDUSD=X" true s)))
  have cHK := ratesStep_cover_self env ps "HKD" "HKDUSD=X" true s
  have cHK2 := ratesStep_cover_mono env ps "HKD" "HKDUSD=X" _ l2 cHK
  rw [← hl2] at cHK2
  have cHK3 := ratesStep_cover_mono env ps "HKD" "HKDUSD=X" _ l3 cHK2
  rw [← hl3] at cHK3
  have cHK4 := ratesStep_cover_mono env ps "HKD" "HKDUSD=X" _ l4 cHK3
  rw [← hl4] at cHK4
  have cEUR := ratesStep_cover_self env ps "EUR" "EURUSD=X" false
    (ratesStep env ps "HKD" "HKDUSD=X" true s)
  have cEUR3 := ratesStep_cover_mono env ps "EUR" "EURUSD=X" _ l3 cEUR
  rw [← hl3] at cEUR3
  have cEUR4 := ratesStep_cover_mono env ps "EUR" "EURUSD=X" _ l4 cEUR3
  rw [← hl4] at cEUR4
  have cGBP := ratesStep_cover_self env ps "GBP" "GBPUSD=X" false
    (ratesStep env ps "EUR" "EURUSD=X" false (ratesStep env ps "HKD" "HKDUSD=X" true s))
  have cGBP4 := ratesStep_cover_mono env ps "GBP" "GBPUSD=X" _ l4 cGBP
  rw [← hl4] at cGBP4
  have cCAD := ratesStep_cover_self env ps "CAD" "CADUSD=X" false
    (ratesStep env ps "GBP" "GBPUSD=X" false (ratesStep env ps "EUR" "EURUSD=X" false
      (ratesStep env ps "HKD" "HKDUSD=X" true s)))
  unfold ratesChain
  rw [ratesStep_eq_self env ps "HKD" "HKDUSD=X" true _ cHK4,
      ratesStep_eq_self env ps "EUR" "EURUSD=X" false _ cEUR4,
      ratesStep_eq_self env ps "GBP" "GBPUSD=X" false _ cGBP4,
      ratesStep_eq_self env ps "CAD" "CADUSD=X" false _ cCAD]

end StocksPicking

namespace StocksPicking

/-! ### Stage-level computation lemmas for the pipeline -/

theorem process_all_after_ingest (fd : ℕ) (env : Env) (X : DB) :
    process_all fd env X =
      (match calculate_and_save_portfolio_allocations fd
          (download_and_save_stock_data env (save_positions_to_db X)) with
        | Except.error _ => download_and_save_stock_data env (save_positions_to_db X)
        | Except.ok db3 =>
          match calculate_and_save_portfolio_values fd db3 with
          | Except.error _ => db3
          | Except.ok db4 => calculate_and_save_performance_metrics env.currentDate db4) :=
  rfl

theorem ingest_explicit (env : Env) (X : DB) :
    download_and_save_stock_data env (save_positions_to_db X)
      = ⟨fixedRows, writeDailyPrices X.daily_prices (newPriceRows env fixedRows),
         ratesChain env fixedRows X.exchange_rates,
         X.portfolio_values, X.performance_metrics⟩ :=
  rfl

theorem alloc_explicit (fd : ℕ) (pos ps3 : List PositionRow) (dp : List PriceRow)
    (er : List RateRow) (pv : List ValueRow) (pm : List MetricRow)
    (h : alloc_result fd dp pos = .ok ps3) :
    calculate_and_save_portfolio_allocations fd ⟨pos, dp, er, pv, pm⟩
      = .ok ⟨ps3, dp, er, pv, pm⟩ := by
  show (alloc_result fd dp pos).map _ = _
  rw [h]
  rfl

theorem alloc_explicit_error (fd : ℕ) (pos : List PositionRow) (dp : List PriceRow)
    (er : List RateRow) (pv : List ValueRow) (pm : List MetricRow) (e : AllocError)
    (h : alloc_result fd dp pos = .error e) :
    calculate_and_save_portfolio_allocations fd ⟨pos, dp, er, pv, pm⟩ = .error e := by
  show (alloc_result fd dp pos).map _ = _
  rw [h]
  rfl

theorem values_explicit_some (fd : ℕ) (pos : List PositionRow) (dp : List PriceRow)
    (er : List RateRow) (pv rows : List ValueRow) (pm : List MetricRow)
    (h : values_result fd dp pos = .ok (some rows)) :
    calculate_and_save_portfolio_values fd ⟨pos, dp, er, pv, pm⟩
      = .ok ⟨pos, dp, er, rows, pm⟩ := by
  show (values_result fd dp pos).map _ = _
  rw [h]
  rfl

theorem values_explicit_none (fd : ℕ) (pos : List PositionRow) (dp : List PriceRow)
    (er : List RateRow) (pv : List ValueRow) (pm : List MetricRow)
    (h : values_result fd dp pos = .ok none) :
    calculate_and_save_portfolio_values fd ⟨pos, dp, er, pv, pm⟩
      = .ok ⟨pos, dp, er, pv, pm⟩ := by
  show (values_result fd dp pos).map _ = _
  rw [h]
  rfl

theorem values_explicit_error (fd : ℕ) (pos : List PositionRow) (dp : List PriceRow)
    (er : List RateRow) (pv : List ValueRow) (pm : List MetricRow) (e : AllocError)
    (h : values_result fd dp pos = .error e) :
    calculate_and_save_portfolio_values fd ⟨pos, dp, er, pv, pm⟩ = .error e := by
  show (values_result fd dp pos).map _ = _
  rw [h]
  rfl

theorem metrics_explicit_some (cd : ℕ) (pos : List PositionRow) (dp : List PriceRow)
    (er : List RateRow) (pv : List ValueRow) (pm ms : List MetricRow)
    (h : metrics_result cd pos pv = some ms) :
    calculate_and_save_performance_metrics cd ⟨pos, dp, er, pv, pm⟩
      = ⟨pos, dp, er, pv, ms⟩ := by
  show (match metrics_result cd pos pv with
    | some ms2 => (⟨pos, dp, er, pv, ms2⟩ : DB)
    | none => ⟨pos, dp, er, pv, pm⟩) = _
  rw [h]

theorem metrics_explicit_none (cd : ℕ) (pos : List PositionRow) (dp : List PriceRow)
    (er : List RateRow) (pv : List ValueRow) (pm : List MetricRow)
    (h : metrics_result cd pos pv = none) :
    calculate_and_save_performance_metrics cd ⟨pos, dp, er, pv, pm⟩
      = ⟨pos, dp, er, pv, pm⟩ := by
  show (match metrics_result cd pos pv with
    | some ms2 => (⟨pos, dp, er, pv, ms2⟩ : DB)
    | none => ⟨pos, dp, er, pv, pm⟩) = _
  rw [h]

theorem pipeline_tail_error (fd : ℕ) (env : Env) (X : DB) (e : AllocError)
    (h : calculate_and_save_portfolio_allocations fd
      (download_and_save_stock_data env (save_positions_to_db X)) = .error e) :
    process_all fd env X = download_and_save_stock_data env (save_positions_to_db X) := by
  rw [process_all_after_ingest, h]

theorem pipeline_tail_ok (fd : ℕ) (env : Env) (X d3 : DB)
    (h : calculate_and_save_portfolio_allocations fd
      (download_and_save_stock_data env (save_positions_to_db X)) = .ok d3) :
    process_all fd env X =
      (match calculate_and_save_portfolio_values fd d3 with
        | Except.error _ => d3
        | Except.ok db4 => calculate_and_save_performance_metrics env.currentDate db4) := by
  rw [process_all_after_ingest, h]

theorem values_tail_error (cd fd : ℕ) (d3 : DB) (e : AllocError)
    (h : calculate_and_save_portfolio_values fd d3 = .error e) :
    (match calculate_and_save_portfolio_values fd d3 with
      | Except.error _ => d3
      | Except.ok db4 => calculate_and_save_performance_metrics cd db4) = d3 := by
  rw [h]

theorem values_tail_ok (cd fd : ℕ) (d3 d4 : DB)
    (h : calculate_and_save_portfolio_values fd d3 = .ok d4) :
    (match calculate_and_save_portfolio_values fd d3 with
      | Except.error _ => d3
      | Except.ok db4 => calculate_and_save_performance_metrics cd db4)
      = calculate_and_save_performance_metrics cd d4 := by
  rw [h]

end StocksPicking

namespace StocksPicking

/-! ### Claim C5: pipeline idempotence -/

/-- Claim C5: running the full pipeline (positions → ingestion → allocation →
valuation → summary) a second time with identical upstream data (the same Env,
including the same vendor series and wall-clock date) leaves every table
exactly as the first run left it.  The time-series tables converge because
only rows dated strictly after the stored maximum are appended, so the second
run appends nothing (writeDailyPrices_idem, ratesChain_idem); the remaining
stages are deterministic in the tables they read. -/
theorem pipeline_idempotent_C5 (fd : ℕ) (env : Env) (db : DB) :
    process_all fd env (process_all fd env db) = process_all fd env db := by
  have hDPi := writeDailyPrices_idem db.daily_prices (newPriceRows env fixedRows)
  have hERi := ratesChain_idem env fixedRows db.exchange_rates
  cases halloc : alloc_result fd
      (writeDailyPrices db.daily_prices (newPriceRows env fixedRows)) fixedRows with
  | error e =>
    have hrun : ∀ X : DB,
        writeDailyPrices X.daily_prices (newPriceRows env fixedRows)
          = writeDailyPrices db.daily_prices (newPriceRows env fixedRows) →
        ratesChain env fixedRows X.exchange_rates
          = ratesChain env fixedRows db.exchange_rates →
        process_all fd env X
          = ⟨fixedRows, writeDailyPrices db.daily_prices (newPriceRows env fixedRows),
             ratesChain env fixedRows db.exchange_rates,
             X.portfolio_values, X.performance_metrics⟩ := by
      intro X h1 h2
      rw [pipeline_tail_error fd env X e
        (by rw [ingest_explicit, h1, h2]
            exact alloc_explicit_error fd fixedRows _ _ _ _ e halloc)]
      rw [ingest_explicit, h1, h2]
    have hA := hrun db rfl rfl
    rw [hA]
    exact hrun ⟨fixedRows, writeDailyPrices db.daily_prices (newPriceRows env fixedRows),
      ratesChain env fixedRows db.exchange_rates,
      db.portfolio_values, db.performance_metrics⟩ hDPi hERi
  | ok ps3 =>
    cases hvals : values_result fd
        (writeDailyPrices db.daily_prices (newPriceRows env fixedRows)) ps3 with
    | error e2 =>
      have hrun : ∀ X : DB,
          writeDailyPrices X.daily_prices (newPriceRows env fixedRows)
            = writeDailyPrices db.daily_prices (newPriceRows env fixedRows) →
          ratesChain env fixedRows X.exchange_rates
            = ratesChain env fixedRows db.exchange_rates →
          process_all fd env X
            = ⟨ps3, writeDailyPrices db.daily_prices (newPriceRows env fixedRows),
               ratesChain env fixedRows db.exchange_rates,
               X.portfolio_values, X.performance_metrics⟩ := by
        intro X h1 h2
        rw [pipeline_tail_ok fd env X
            ⟨ps3, writeDailyPrices db.daily_prices (newPriceRows env fixedRows),
             ratesChain env fixedRows db.exchange_rates,
             X.portfolio_values, X.performance_metrics⟩
          (by rw [ingest_explicit, h1, h2]
              exact alloc_explicit fd fixedRows ps3 _ _ _ _ halloc)]
        exact values_tail_error env.currentDate fd _ e2
          (values_explicit_error fd ps3 _ _ _ _ e2 hvals)
      have hA := hrun db rfl rfl
      rw [hA]
      exact hrun ⟨ps3, writeDailyPrices db.daily_prices (newPriceRows env fixedRows),
        ratesChain env fixedRows db.exchange_rates,
        db.portfolio_values, db.performance_metrics⟩ hDPi hERi
    | ok vres =>
      cases vres with
      | none =>
        cases hm : metrics_result env.currentDate ps3 db.portfolio_values with
        | some ms =>
          have hrun : ∀ X : DB,
              writeDailyPrices X.daily_prices (newPriceRows env fixedRows)
                = writeDailyPrices db.daily_prices (newPriceRows env fixedRows) →
              ratesChain env fixedRows X.exchange_rates
                = ratesChain env fixedRows db.exchange_rates →
              metrics_result env.currentDate ps3 X.portfolio_values = some ms →
              process_all fd env X
                = ⟨ps3, writeDailyPrices db.daily_prices (newPriceRows env fixedRows),
                   ratesChain env fixedRows db.exchange_rates,
                   X.portfolio_values, ms⟩ := by
            intro X h1 h2 hmX
            rw [pipeline_tail_ok fd env X
                ⟨ps3, writeDailyPrices db.daily_prices (newPriceRows env fixedRows),
                 ratesChain env fixedRows db.exchange_rates,
                 X.portfolio_values, X.performance_metrics⟩
              (by rw [ingest_explicit, h1, h2]
                  exact alloc_explicit fd fixedRows ps3 _ _ _ _ halloc)]
            rw [values_tail_ok env.currentDate fd _ _
              (values_explicit_none fd ps3 _ _ _ _ hvals)]
            exact metrics_explicit_some env.currentDate ps3 _ _ _ _ ms hmX
          have hA := hrun db rfl rfl hm
          rw [hA]
          exact hrun ⟨ps3, writeDailyPrices db.daily_prices (newPriceRows env fixedRows),
            ratesChain env fixedRows db.exchange_rates,
            db.portfolio_values, ms⟩ hDPi hERi hm
        | none =>
          have hrun : ∀ X : DB,
              writeDailyPrices X.daily_prices (newPriceRows env fixedRows)
                = writeDailyPrices db.daily_prices (newPriceRows env fixedRows) →
              ratesChain env fixedRows X.exchange_rates
                = ratesChain env fixedRows db.exchange_rates →
              metrics_result env.currentDate ps3 X.portfolio_values = none →
              process_all fd env X
                = ⟨ps3, writeDailyPrices db.daily_prices (newPriceRows env fixedRows),
                   ratesChain env fixedRows db.exchange_rates,
                   X.portfolio_values, X.performance_metrics⟩ := by
            intro X h1 h2 hmX
            rw [pipeline_tail_ok fd env X
                ⟨ps3, writeDailyPrices db.daily_prices (newPriceRows env fixedRows),
                 ratesChain env fixedRows db.exchange_rates,
                 X.portfolio_values, X.performance_metrics⟩
              (by rw [ingest_explicit, h1, h2]
                  exact alloc_explicit fd fixedRows ps3 _ _ _ _ halloc)]
            rw [values_tail_ok env.currentDate fd _ _
              (values_explicit_none fd ps3 _ _ _ _ hvals)]
            exact metrics_explicit_none env.currentDate ps3 _ _ _ _ hmX
          have hA := hrun db rfl rfl hm
          rw [hA]
          exact hrun ⟨ps3, writeDailyPrices db.daily_prices (newPriceRows env fixedRows),
            ratesChain env fixedRows db.exchange_rates,
            db.portfolio_values, db.performance_metrics⟩ hDPi hERi hm
      | some rows =>
        cases hm : metrics_result env.currentDate ps3 rows with
        | some ms =>
          have hrun : ∀ X : DB,
              writeDailyPrices X.daily_prices (newPriceRows env fixedRows)
                = writeDailyPrices db.daily_prices (newPriceRows env fixedRows) →
              ratesChain env fixedRows X.exchange_rates
                = ratesChain env fixedRows db.exchange_rates →
              process_all fd env X
                = ⟨ps3, writeDailyPrices db.daily_prices (newPriceRows env fixedRows),
                   ratesChain env fixedRows db.exchange_rates,
                   rows, ms⟩ := by
            intro X h1 h2
            rw [pipeline_tail_ok fd env X
                ⟨ps3, writeDailyPrices db.daily_prices (newPriceRows env fixedRows),
                 ratesChain env fixedRows db.exchange_rates,
                 X.portfolio_values, X.performance_metrics⟩
              (by rw [ingest_explicit, h1, h2]
                  exact alloc_explicit fd fixedRows ps3 _ _ _ _ halloc)]
            rw [values_tail_ok env.currentDate fd _ _
              (values_explicit_some fd ps3 _ _ _ rows _ hvals)]
            exact metrics_explicit_some env.currentDate ps3 _ _ _ _ ms hm
          have hA := hrun db rfl rfl
          rw [hA]
          exact hrun ⟨ps3, writeDailyPrices db.daily_prices (newPriceRows env fixedRows),
            ratesChain env fixedRows db.exchange_rates,
            rows, ms⟩ hDPi hERi
        | none =>
          have hrun : ∀ X : DB,
              writeDailyPrices X.daily_prices (newPriceRows env fixedRows)
                = writeDailyPrices db.daily_prices (newPriceRows env fixedRows) →
              ratesChain env fixedRows X.exchange_rates
                = ratesChain env fixedRows db.exchange_rates →
              process_all fd env X
                = ⟨ps3, writeDailyPrices db.daily_prices (newPriceRows env fixedRows),
                   ratesChain env fixedRows db.exchange_rates,
                   rows, X.performance_metrics⟩ := by
            intro X h1 h2
            rw [pipeline_tail_ok fd env X
                ⟨ps3, writeDailyPrices db.daily_prices (newPriceRows env fixedRows),
                 ratesChain env fixedRows db.exchange_rates,
                 X.portfolio_values, X.performance_metrics⟩
              (by rw [ingest_explicit, h1, h2]
                  exact alloc_explicit fd fixedRows ps3 _ _ _ _ halloc)]
            rw [values_tail_ok env.currentDate fd _ _
              (values_explicit_some fd ps3 _ _ _ rows _ hvals)]
            exact metrics_explicit_none env.currentDate ps3 _ _ _ _ hm
          have hA := hrun db rfl rfl
          rw [hA]
          exact hrun ⟨ps3, writeDailyPrices db.daily_prices (newPriceRows env fixedRows),
            ratesChain env fixedRows db.exchange_rates,
            rows, db.performance_metrics⟩ hDPi hERi

end StocksPicking
